import Mathlib

/-!
# PM25Dashboard: the aggregation performed by `loadData`

A shallow embedding of the data pipeline of `src/PM25Dashboard.js`
(`getMonthYear` and the body of `loadData` after `Papa.parse`), followed by
theorems about the three values it publishes: the reading series, the overall
statistics and the sorted monthly statistics.

Modelling conventions.

* A JavaScript string is a `List Char` (`Str`).
* A JavaScript number is a `Num`: `NaN`, the two infinities, or a finite value.
  Finite values are exact rationals: the rounding of IEEE doubles is not
  modelled and the two zeros are identified.
* A record produced by `Papa.parse` with `header: true` is a `Row` holding the
  two columns read by the component, both strings. A record that lacks the
  value column behaves as one whose value is not a number (`parseFloat` of
  `undefined` is `NaN`); a record that lacks the date column makes the load
  throw and publish nothing, and is outside the model.
* The object used as accumulator in the monthly `reduce` is an association list
  in insertion order. Its keys always contain a `/`, so they are never integer
  indices nor names found on `Object.prototype`, and `Object.values` lists them
  in insertion order.
* The presentation-only field `monthShort` is left out of the monthly entries.
-/

namespace PM25Dashboard

/-- JavaScript strings. -/
abbrev Str := List Char

/-- JavaScript numbers, with exact rationals for the finite values. -/
inductive Num where
  | nan : Num
  | negInf : Num
  | fin : ℚ → Num
  | posInf : Num
  deriving DecidableEq, Inhabited

namespace Num

/-- The operator `+` on numbers. -/
def add : Num → Num → Num
  | nan, _ => nan
  | _, nan => nan
  | posInf, negInf => nan
  | negInf, posInf => nan
  | posInf, _ => posInf
  | _, posInf => posInf
  | negInf, _ => negInf
  | _, negInf => negInf
  | fin a, fin b => fin (a + b)

/-- Unary minus. -/
def neg : Num → Num
  | nan => nan
  | negInf => posInf
  | posInf => negInf
  | fin a => fin (-a)

/-- The operator `-` on numbers. -/
def sub (a b : Num) : Num := add a (neg b)

/-- The operator `*` on numbers. -/
def mul : Num → Num → Num
  | nan, _ => nan
  | _, nan => nan
  | fin a, fin b => fin (a * b)
  | fin a, posInf => if a = 0 then nan else if 0 < a then posInf else negInf
  | fin a, negInf => if a = 0 then nan else if 0 < a then negInf else posInf
  | posInf, fin b => if b = 0 then nan else if 0 < b then posInf else negInf
  | negInf, fin b => if b = 0 then nan else if 0 < b then negInf else posInf
  | posInf, posInf => posInf
  | negInf, negInf => posInf
  | posInf, negInf => negInf
  | negInf, posInf => negInf

/-- The operator `/` on numbers. A zero divisor is the positive zero, which is
the only zero the component divides by (a length or a counter). -/
def div : Num → Num → Num
  | nan, _ => nan
  | _, nan => nan
  | fin a, fin b =>
    if b = 0 then (if a = 0 then nan else if 0 < a then posInf else negInf)
    else fin (a / b)
  | fin _, posInf => fin 0
  | fin _, negInf => fin 0
  | posInf, fin b => if 0 ≤ b then posInf else negInf
  | negInf, fin b => if 0 ≤ b then negInf else posInf
  | posInf, posInf => nan
  | posInf, negInf => nan
  | negInf, posInf => nan
  | negInf, negInf => nan

/-- The comparison `a < b`; false as soon as an operand is `NaN`. -/
def lt : Num → Num → Bool
  | nan, _ => false
  | _, nan => false
  | _, negInf => false
  | negInf, _ => true
  | posInf, _ => false
  | fin _, posInf => true
  | fin a, fin b => decide (a < b)

/-- The comparison `a > b`, that is `b < a`. -/
def gt (a b : Num) : Bool := lt b a

end Num

/-! ## Reading numbers out of strings -/

/-- The characters `StrWhiteSpaceChar` of ECMAScript (white space and line
terminators), skipped by `parseFloat` and trimmed by `ToNumber`. -/
def isStrWhiteSpaceChar (c : Char) : Bool :=
  c.toNat ∈ [0x09, 0x0A, 0x0B, 0x0C, 0x0D, 0x20, 0xA0, 0x1680, 0x2000, 0x2001,
    0x2002, 0x2003, 0x2004, 0x2005, 0x2006, 0x2007, 0x2008, 0x2009, 0x200A,
    0x2028, 0x2029, 0x202F, 0x205F, 0x3000, 0xFEFF]

/-- A decimal digit `0`..`9`. -/
def isDecimalDigit (c : Char) : Bool := 48 ≤ c.toNat && c.toNat ≤ 57

/-- Value of a run of decimal digits, most significant first. -/
def digitsVal (ds : List Char) : Nat :=
  ds.foldl (fun n c => 10 * n + (c.toNat - 48)) 0

/-- The exponent part `e`/`E`, optional sign, at least one digit. Returns the
exponent and what follows it; when no well-formed exponent starts here the
exponent is `0` and nothing is consumed. -/
def scanExponent (cs : List Char) : Int × List Char :=
  match cs with
  | c :: rest =>
    if c = 'e' ∨ c = 'E' then
      let (negative, body) :=
        match rest with
        | '-' :: r => (true, r)
        | '+' :: r => (false, r)
        | _ => (false, rest)
      let ds := body.takeWhile isDecimalDigit
      if ds = [] then (0, cs)
      else ((if negative then -(digitsVal ds : Int) else (digitsVal ds : Int)),
            body.dropWhile isDecimalDigit)
    else (0, cs)
  | [] => (0, cs)

/-- Longest prefix that is a `StrUnsignedDecimalLiteral`: `Infinity`, or digits
with an optional fraction and exponent. Returns its value and the characters
left over, or `none` when no prefix is a literal. -/
def scanUnsignedDecimal (cs : List Char) : Option (Num × List Char) :=
  if "Infinity".toList <+: cs then some (Num.posInf, cs.drop 8)
  else
    let intDs := cs.takeWhile isDecimalDigit
    let afterInt := cs.dropWhile isDecimalDigit
    let (fracDs, afterFrac, hasDot) :=
      match afterInt with
      | '.' :: r => (r.takeWhile isDecimalDigit, r.dropWhile isDecimalDigit, true)
      | _ => ([], afterInt, false)
    if intDs = [] ∧ fracDs = [] then none
    else
      let afterMantissa := if hasDot then afterFrac else afterInt
      let (e, rest) := scanExponent afterMantissa
      let mantissa : ℚ := (digitsVal intDs : ℚ) + (digitsVal fracDs : ℚ) / (10 : ℚ) ^ fracDs.length
      some (Num.fin (mantissa * (10 : ℚ) ^ e), rest)

/-- Longest prefix that is a `StrDecimalLiteral` (an optional sign, then an
unsigned literal). -/
def scanDecimal (cs : List Char) : Option (Num × List Char) :=
  match cs with
  | '-' :: r => (scanUnsignedDecimal r).map (fun p => (Num.neg p.1, p.2))
  | '+' :: r => scanUnsignedDecimal r
  | _ => scanUnsignedDecimal cs

/-- The global function `parseFloat` on a string: leading white space is
skipped, the longest decimal literal at the front is read, and the result is
`NaN` when there is none. -/
def parseFloat (s : Str) : Num :=
  match scanDecimal (s.dropWhile isStrWhiteSpaceChar) with
  | some (v, _) => v
  | none => Num.nan

/-- Value of a digit in radix 16 (also used for radix 8 and 2), if it is one. -/
def hexDigitVal (c : Char) : Option Nat :=
  if 48 ≤ c.toNat ∧ c.toNat ≤ 57 then some (c.toNat - 48)
  else if 97 ≤ c.toNat ∧ c.toNat ≤ 102 then some (c.toNat - 87)
  else if 65 ≤ c.toNat ∧ c.toNat ≤ 70 then some (c.toNat - 55)
  else none

/-- Digits of a non-decimal integer literal in the given radix: at least one
digit, each below the radix. -/
def radixDigitsVal (radix : Nat) (ds : List Char) : Option Nat :=
  if ds = [] then none
  else ds.foldl (fun acc c =>
    match acc, hexDigitVal c with
    | some n, some d => if d < radix then some (radix * n + d) else none
    | _, _ => none) (some 0)

/-- A `NonDecimalIntegerLiteral` (`0x`, `0o`, `0b` forms) spanning the whole
string. -/
def scanNonDecimal (cs : List Char) : Option Num :=
  match cs with
  | '0' :: x :: ds =>
    let radix : Option Nat :=
      if x = 'x' ∨ x = 'X' then some 16
      else if x = 'o' ∨ x = 'O' then some 8
      else if x = 'b' ∨ x = 'B' then some 2
      else none
    match radix with
    | some r => (radixDigitsVal r ds).map (fun n => Num.fin (n : ℚ))
    | none => none
  | _ => none

/-- Strips `StrWhiteSpaceChar`s at both ends. -/
def trimWhiteSpace (s : Str) : Str :=
  ((s.dropWhile isStrWhiteSpaceChar).reverse.dropWhile isStrWhiteSpaceChar).reverse

/-- The abstract operation `StringToNumber`: the trimmed string must be empty
(giving `0`) or be a numeric literal as a whole, otherwise the result is `NaN`. -/
def stringToNumber (s : Str) : Num :=
  let t := trimWhiteSpace s
  if t = [] then Num.fin 0
  else
    match scanDecimal t with
    | some (v, []) => v
    | _ =>
      match scanNonDecimal t with
      | some v => v
      | none => Num.nan

/-- The abstract operation `ToNumber` on a value that is a string or
`undefined` (`none`). -/
def toNumber : Option Str → Num
  | some s => stringToNumber s
  | none => Num.nan

/-- The abstract operation `ToNumber` on a value that is a number or `null`
(`none`). -/
def nullToNumber : Option Num → Num
  | some v => v
  | none => Num.fin 0

/-! ## Strings -/

/-- The method `String.prototype.split` with a one-character separator. -/
def split (sep : Char) : Str → List Str
  | [] => [[]]
  | c :: cs =>
    if c = sep then [] :: split sep cs
    else
      match split sep cs with
      | [] => [[c]]
      | p :: ps => (c :: p) :: ps

/-- A value that is a string or `undefined`, as substituted in a template
literal. -/
def templateString : Option Str → Str
  | some s => s
  | none => "undefined".toList

/-- Decimal digits of a natural number. -/
def natDigits (n : Nat) : Str := Nat.toDigits 10 n

/-- Steps 11.b and 11.c of `Number.prototype.toFixed`: the digits of `n`, padded
with zeros to more than `f` digits, with a point before the last `f` digits. -/
def fixedDigits (n f : Nat) : Str :=
  let m := natDigits n
  if f = 0 then m
  else
    let m := if m.length ≤ f then List.replicate (f + 1 - m.length) '0' ++ m else m
    m.take (m.length - f) ++ '.' :: m.drop (m.length - f)

/-- The integer `n` for which `n / 10 ^ f - x` is closest to zero, the larger
one when two are equally close (`x` nonnegative). -/
def nearestScaled (x : ℚ) (f : Nat) : Nat := Int.toNat ⌊x * (10 : ℚ) ^ f + 1 / 2⌋

/-- The method `Number.prototype.toFixed` with `f` fraction digits
(`0 ≤ f ≤ 100`). For a magnitude of `10 ^ 21` or more the method returns the
shortest round-trip rendering of the double, which is outside this model: the
result is then `none`. -/
def toFixed (x : Num) (f : Nat) : Option Str :=
  match x with
  | Num.nan => some "NaN".toList
  | Num.posInf => some "Infinity".toList
  | Num.negInf => some "-Infinity".toList
  | Num.fin q =>
    let s : Str := if q < 0 then ['-'] else []
    let a : ℚ := if q < 0 then -q else q
    if (10 : ℚ) ^ 21 ≤ a then none
    else some (s ++ fixedDigits (nearestScaled a f) f)

/-- The function `Math.min` after the coercion of its arguments: the loop of
the specification, started with `lowest = +∞`. -/
def mathMinLoop : Num → List Num → Num
  | lowest, [] => lowest
  | lowest, n :: rest =>
    if n = Num.nan then Num.nan
    else mathMinLoop (if Num.lt n lowest then n else lowest) rest

/-- The function `Math.min` on numbers. -/
def mathMin (args : List Num) : Num := mathMinLoop Num.posInf args

/-- The function `Math.max` after the coercion of its arguments: the loop of
the specification, started with `highest = -∞`. -/
def mathMaxLoop : Num → List Num → Num
  | highest, [] => highest
  | highest, n :: rest =>
    if n = Num.nan then Num.nan
    else mathMaxLoop (if Num.gt n highest then n else highest) rest

/-- The function `Math.max` on numbers. -/
def mathMax (args : List Num) : Num := mathMaxLoop Num.negInf args

/-! ## The component -/

/-- A record of `parsedData.data`: the columns `Data rilevamento` and `Valore`. -/
structure Row where
  dataRilevamento : Str
  valore : Str
  deriving DecidableEq, Inhabited

/-- An element of `processedData`. The value is a number or `null` (`none`). -/
structure Reading where
  date : Str
  value : Option Num
  deriving DecidableEq, Inhabited

/-- The object `stats`. -/
structure Stats where
  count : Nat
  min : Num
  max : Num
  avg : Num
  exceedances : Nat
  deriving DecidableEq, Inhabited

/-- A value of the accumulator object of the monthly `reduce`. -/
structure MonthAcc where
  monthYear : Str
  totalDays : Nat
  exceedances : Nat
  avgValue : Num
  validValues : List Num
  deriving DecidableEq, Inhabited

/-- An element of `monthlyStats`: the accumulator fields with `avgValue`
replaced, and `exceedancePercentage`, which is the string returned by
`toFixed(1)`. -/
structure MonthStat where
  monthYear : Str
  totalDays : Nat
  exceedances : Nat
  avgValue : Num
  validValues : List Num
  exceedancePercentage : Option Str
  deriving DecidableEq, Inhabited

/-- The function `getMonthYear`: the second and third pieces of the date split
at `/`, joined by `/`; a missing piece is `undefined`. -/
def getMonthYear (dateStr : Str) : Str :=
  let parts := split '/' dateStr
  let month := parts[1]?
  let year := parts[2]?
  templateString month ++ '/' :: templateString year

/-- The expression `row['Valore'] === '' ? null : parseFloat(row['Valore'])`. -/
def rowValue (row : Row) : Option Num :=
  if row.valore = [] then none else some (parseFloat row.valore)

/-- The array `processedData`: one reading per record, those with a `null` value
filtered out. -/
def processedData (rows : List Row) : List Reading :=
  (rows.map (fun row => ({ date := row.dataRilevamento, value := rowValue row } : Reading))).filter
    (fun row => row.value != none)

/-- The comparison `value > 25` on a number or `null`. -/
def exceeds (value : Option Num) : Bool := Num.gt (nullToNumber value) (Num.fin 25)

/-- The object `stats` computed from `processedData`. -/
def stats (processed : List Reading) : Stats :=
  let validValues := processed.filter (fun d => d.value != none)
  { count := validValues.length
    min := mathMin (validValues.map (fun d => nullToNumber d.value))
    max := mathMax (validValues.map (fun d => nullToNumber d.value))
    avg := Num.div (validValues.foldl (fun acc curr => Num.add acc (nullToNumber curr.value)) (Num.fin 0))
      (Num.fin (validValues.length : ℚ))
    exceedances := (validValues.filter (fun d => exceeds d.value)).length }

/-- The accumulator object: keys with their values, in insertion order. -/
abbrev MonthTable := List (Str × MonthAcc)

/-- Property read `acc[key]`. -/
def MonthTable.get (acc : MonthTable) (key : Str) : Option MonthAcc :=
  (acc.find? (fun p => p.1 = key)).map (fun p => p.2)

/-- Assignment `acc[key] = m` of a property that is absent: appended last. -/
def MonthTable.set (acc : MonthTable) (key : Str) (m : MonthAcc) : MonthTable :=
  if (acc.get key).isSome then acc.map (fun p => if p.1 = key then (p.1, m) else p)
  else acc ++ [(key, m)]

/-- In-place change of the object held at `acc[key]`. -/
def MonthTable.modify (acc : MonthTable) (key : Str) (f : MonthAcc → MonthAcc) : MonthTable :=
  acc.map (fun p => if p.1 = key then (p.1, f p.2) else p)

/-- The object literal stored for a month seen for the first time. -/
def newMonth (monthYear : Str) : MonthAcc :=
  { monthYear := monthYear, totalDays := 0, exceedances := 0, avgValue := Num.fin 0,
    validValues := [] }

/-- The body of `if (value !== null)` applied to the object of the month: a
`null` value changes nothing, a number is counted, compared with 25 and pushed. -/
def recordValue (value : Option Num) (m : MonthAcc) : MonthAcc :=
  match value with
  | some v =>
    { m with
      totalDays := m.totalDays + 1
      exceedances := if exceeds (some v) then m.exceedances + 1 else m.exceedances
      validValues := m.validValues ++ [v] }
  | none => m

/-- The callback of the monthly `reduce`. -/
def monthlyStep (acc : MonthTable) (row : Row) : MonthTable :=
  let monthYear := getMonthYear row.dataRilevamento
  let value := rowValue row
  let acc := if (acc.get monthYear).isNone then acc.set monthYear (newMonth monthYear) else acc
  if value != none then acc.modify monthYear (recordValue value) else acc

/-- The object `monthlyData`. -/
def monthlyData (rows : List Row) : MonthTable := rows.foldl monthlyStep []

/-- The callback of the `map` over `Object.values(monthlyData)`. -/
def finalizeMonth (month : MonthAcc) : MonthStat :=
  let values := month.validValues
  { monthYear := month.monthYear
    totalDays := month.totalDays
    exceedances := month.exceedances
    validValues := month.validValues
    avgValue := Num.div (values.foldl (fun a b => Num.add a b) (Num.fin 0)) (Num.fin (values.length : ℚ))
    exceedancePercentage :=
      toFixed (Num.mul (Num.div (Num.fin (month.exceedances : ℚ)) (Num.fin (month.totalDays : ℚ)))
        (Num.fin 100)) 1 }

/-- The comparator passed to `sort`. -/
def compareMonths (a b : MonthStat) : Num :=
  let partsA := split '/' a.monthYear
  let partsB := split '/' b.monthYear
  let monthA := partsA[0]?
  let yearA := partsA[1]?
  let monthB := partsB[0]?
  let yearB := partsB[1]?
  if yearA = yearB then Num.sub (toNumber monthA) (toNumber monthB)
  else Num.sub (toNumber yearA) (toNumber yearB)

/-- Whether `sort` moves `a` after `b`: the comparator returned a number above
zero (a `NaN` counts as zero). -/
def sortsAfter (cmp : α → α → Num) (a b : α) : Bool := Num.gt (cmp a b) (Num.fin 0)

/-- Insertion of `a` in front of a sorted list, past the elements it sorts after. -/
def sortInsert (cmp : α → α → Num) (a : α) : List α → List α
  | [] => [a]
  | b :: l => if sortsAfter cmp a b then b :: sortInsert cmp a l else a :: b :: l

/-- The method `Array.prototype.sort` with a comparator, as a stable insertion
sort. When the comparator is consistent on the elements every conforming
implementation returns this list. -/
def sort (cmp : α → α → Num) : List α → List α
  | [] => []
  | a :: l => sortInsert cmp a (sort cmp l)

/-- The array `monthlyStats`. -/
def monthlyStats (rows : List Row) : List MonthStat :=
  sort compareMonths (((monthlyData rows).map (fun p => p.2)).map finalizeMonth)

/-- The three values published by `loadData`. -/
structure Output where
  data : List Reading
  stats : Stats
  monthlyStats : List MonthStat
  deriving DecidableEq, Inhabited

/-- The body of `loadData` after the parse of the text. -/
def loadData (rows : List Row) : Output :=
  let processed := processedData rows
  { data := processed
    stats := stats processed
    monthlyStats := monthlyStats rows }

/-! ## Notions used to state the properties -/

/-- The key under which the monthly pass files a record. -/
def rowKey (row : Row) : Str := getMonthYear row.dataRilevamento

/-- The accumulator object of the key `k` once the values of the records filed
under `k` have been recorded, in the order of the input. -/
def bucket (k : Str) (rows : List Row) : MonthAcc :=
  (rows.filter (fun r => rowKey r = k)).foldl (fun m r => recordValue (rowValue r) m) (newMonth k)

/-- Adds a key to a list of keys unless it is there already. -/
def noteKey (seen : List Str) (k : Str) : List Str := if k ∈ seen then seen else seen ++ [k]

/-- The distinct keys of a list, in order of first occurrence. -/
def firstSeen (ks : List Str) : List Str := ks.foldl noteKey []

/-- A date of the form DD/MM/YYYY: two digits, a slash, two digits, a slash,
four digits. -/
def isDDMMYYYY (s : Str) : Bool :=
  match s with
  | [d1, d2, s1, m1, m2, s2, y1, y2, y3, y4] =>
    isDecimalDigit d1 && isDecimalDigit d2 && s1 == '/' && isDecimalDigit m1 &&
      isDecimalDigit m2 && s2 == '/' && isDecimalDigit y1 && isDecimalDigit y2 &&
      isDecimalDigit y3 && isDecimalDigit y4
  | _ => false

/-- A key of the form MM/YYYY: two digits, a slash, four digits. -/
def isMMYYYY (k : Str) : Bool :=
  match k with
  | [m1, m2, s1, y1, y2, y3, y4] =>
    isDecimalDigit m1 && isDecimalDigit m2 && s1 == '/' && isDecimalDigit y1 &&
      isDecimalDigit y2 && isDecimalDigit y3 && isDecimalDigit y4
  | _ => false

/-- The month, as an integer, of a key `month/year`. -/
def monthOf (monthYear : Str) : Nat := digitsVal ((split '/' monthYear)[0]?.getD [])

/-- The year, as an integer, of a key `month/year`. -/
def yearOf (monthYear : Str) : Nat := digitsVal ((split '/' monthYear)[1]?.getD [])

/-- The MonthKey of a date `day/month/year`: month and year as integers. -/
def monthKey (dateStr : Str) : Nat × Nat :=
  (digitsVal ((split '/' dateStr)[1]?.getD []), digitsVal ((split '/' dateStr)[2]?.getD []))

/-- The MonthKey of a monthly entry: month and year of its key, as integers. -/
def entryKey (e : MonthStat) : Nat × Nat := (monthOf e.monthYear, yearOf e.monthYear)

/-- The order of the claim on monthly entries: an earlier year, or the same year
and an earlier month, both compared as integers. -/
def earlierMonth (a b : MonthStat) : Prop :=
  yearOf a.monthYear < yearOf b.monthYear ∨
    (yearOf a.monthYear = yearOf b.monthYear ∧ monthOf a.monthYear < monthOf b.monthYear)

/-! ## Theorems -/

/-- C6: on the records (08/11/2023, 30), (09/11/2023, empty), (10/11/2023, 20)
the overall statistics are count 2, min 20, max 30, avg 25, exceedances 1, and
the monthly list has the single entry 11/2023 with totalDays 2, exceedances 1,
avgValue 25 and exceedancePercentage rendered as 50.0 (a string whose numeric
value is 50). -/
theorem loadData_three_records :
    (loadData [⟨"08/11/2023".toList, "30".toList⟩, ⟨"09/11/2023".toList, [] ⟩,
        ⟨"10/11/2023".toList, "20".toList⟩]).stats
      = { count := 2, min := Num.fin 20, max := Num.fin 30, avg := Num.fin 25, exceedances := 1 } ∧
    (loadData [⟨"08/11/2023".toList, "30".toList⟩, ⟨"09/11/2023".toList, [] ⟩,
        ⟨"10/11/2023".toList, "20".toList⟩]).monthlyStats
      = [{ monthYear := "11/2023".toList, totalDays := 2, exceedances := 1, avgValue := Num.fin 25,
           validValues := [Num.fin 30, Num.fin 20],
           exceedancePercentage := some "50.0".toList }] ∧
    stringToNumber "50.0".toList = Num.fin 50 := by
  decide!

/-! ### The accumulator object -/

theorem get_cons (p : Str × MonthAcc) (acc : MonthTable) (k : Str) :
    MonthTable.get (p :: acc) k = if p.1 = k then some p.2 else MonthTable.get acc k := by
  unfold MonthTable.get
  by_cases h : p.1 = k <;> simp [List.find?_cons, h]

theorem get_eq_none_iff (acc : MonthTable) (k : Str) :
    MonthTable.get acc k = none ↔ k ∉ acc.map Prod.fst := by
  induction acc with
  | nil => simp [MonthTable.get]
  | cons p acc ih =>
    rw [get_cons]
    by_cases h : p.1 = k
    · simp [h]
    · simp only [h, if_false, ih, List.map_cons, List.mem_cons, not_or]
      constructor
      · intro h2; exact ⟨fun h3 => h h3.symm, h2⟩
      · intro h2; exact h2.2

theorem get_append_single (acc : MonthTable) (k k2 : Str) (m : MonthAcc) :
    MonthTable.get (acc ++ [(k, m)]) k2
      = match MonthTable.get acc k2 with
        | some x => some x
        | none => if k = k2 then some m else none := by
  induction acc with
  | nil => simp [MonthTable.get, List.find?_cons]; split <;> simp_all
  | cons p acc ih =>
    rw [List.cons_append, get_cons, get_cons]
    by_cases h : p.1 = k2
    · simp [h]
    · simp only [h, if_false, ih]

theorem get_modify (acc : MonthTable) (k k2 : Str) (f : MonthAcc → MonthAcc) :
    MonthTable.get (MonthTable.modify acc k f) k2
      = if k2 = k then (MonthTable.get acc k2).map f else MonthTable.get acc k2 := by
  induction acc with
  | nil => simp [MonthTable.get, MonthTable.modify]
  | cons p acc ih =>
    have hm : MonthTable.modify (p :: acc) k f
        = (if p.1 = k then (p.1, f p.2) else p) :: MonthTable.modify acc k f := by
      simp [MonthTable.modify]
    rw [hm, get_cons, get_cons, ih]
    by_cases h1 : p.1 = k <;> by_cases h2 : p.1 = k2 <;> by_cases h3 : k2 = k <;>
      simp_all

theorem keys_modify (acc : MonthTable) (k : Str) (f : MonthAcc → MonthAcc) :
    (MonthTable.modify acc k f).map Prod.fst = acc.map Prod.fst := by
  induction acc with
  | nil => simp [MonthTable.modify]
  | cons p acc ih =>
    simp only [MonthTable.modify, List.map_cons] at ih ⊢
    rw [ih]
    by_cases h : p.1 = k <;> simp [h]

theorem modify_of_not_mem (acc : MonthTable) (k : Str) (f : MonthAcc → MonthAcc)
    (h : k ∉ acc.map Prod.fst) : MonthTable.modify acc k f = acc := by
  induction acc with
  | nil => simp [MonthTable.modify]
  | cons p acc ih =>
    simp only [List.map_cons, List.mem_cons, not_or] at h
    have h1 : ¬ p.1 = k := fun h2 => h.1 h2.symm
    have := ih h.2
    simp only [MonthTable.modify, List.map_cons] at this ⊢
    rw [this]; simp [h1]

/-- The table after the month of a record has been resolved or created. -/
theorem ensure_eq (acc : MonthTable) (k : Str) :
    (if (MonthTable.get acc k).isNone then MonthTable.set acc k (newMonth k) else acc)
      = if k ∈ acc.map Prod.fst then acc else acc ++ [(k, newMonth k)] := by
  by_cases h : k ∈ acc.map Prod.fst
  · have : MonthTable.get acc k ≠ none := fun h2 => (get_eq_none_iff acc k).1 h2 h
    cases hg : MonthTable.get acc k with
    | none => exact absurd hg this
    | some x => simp [h]
  · have hg : MonthTable.get acc k = none := (get_eq_none_iff acc k).2 h
    simp [hg, h, MonthTable.set]

theorem monthlyStep_eq (acc : MonthTable) (row : Row) :
    monthlyStep acc row
      = MonthTable.modify
          (if getMonthYear row.dataRilevamento ∈ acc.map Prod.fst then acc
           else acc ++ [(getMonthYear row.dataRilevamento, newMonth (getMonthYear row.dataRilevamento))])
          (getMonthYear row.dataRilevamento) (recordValue (rowValue row)) := by
  unfold monthlyStep
  simp only [ensure_eq]
  cases hv : rowValue row with
  | some v => simp
  | none =>
    simp only [bne_self_eq_false, Bool.false_eq_true, if_false]
    have : MonthTable.modify
        (if getMonthYear row.dataRilevamento ∈ acc.map Prod.fst then acc
           else acc ++ [(getMonthYear row.dataRilevamento, newMonth (getMonthYear row.dataRilevamento))])
        (getMonthYear row.dataRilevamento) (recordValue none)
        = (if getMonthYear row.dataRilevamento ∈ acc.map Prod.fst then acc
           else acc ++ [(getMonthYear row.dataRilevamento, newMonth (getMonthYear row.dataRilevamento))]) := by
      unfold MonthTable.modify
      conv_rhs => rw [← List.map_id (if getMonthYear row.dataRilevamento ∈ acc.map Prod.fst then acc
           else acc ++ [(getMonthYear row.dataRilevamento, newMonth (getMonthYear row.dataRilevamento))])]
      apply List.map_congr_left
      intro p _
      by_cases h : p.1 = getMonthYear row.dataRilevamento
      · simp [h, recordValue]; exact Prod.ext h.symm rfl
      · simp [h]
    rw [this]

/-! ### The monthly pass -/

theorem keys_monthlyStep (acc : MonthTable) (row : Row) :
    (monthlyStep acc row).map Prod.fst = noteKey (acc.map Prod.fst) (rowKey row) := by
  rw [monthlyStep_eq, keys_modify]
  unfold noteKey rowKey
  by_cases h : getMonthYear row.dataRilevamento ∈ acc.map Prod.fst <;> simp [h]

theorem get_monthlyStep (acc : MonthTable) (row : Row) (k : Str) :
    MonthTable.get (monthlyStep acc row) k
      = if k = rowKey row then
          some (recordValue (rowValue row) ((MonthTable.get acc k).getD (newMonth k)))
        else MonthTable.get acc k := by
  rw [monthlyStep_eq, get_modify]
  unfold rowKey
  by_cases hk : k = getMonthYear row.dataRilevamento
  · subst hk
    simp only [if_true]
    by_cases h : getMonthYear row.dataRilevamento ∈ acc.map Prod.fst
    · simp only [h, if_true]
      cases hg : MonthTable.get acc (getMonthYear row.dataRilevamento) with
      | none => exact absurd h ((get_eq_none_iff _ _).1 hg)
      | some x => simp
    · have hg := (get_eq_none_iff _ _).2 h
      simp only [h, if_false, get_append_single, hg]
      simp
  · simp only [hk, if_false]
    by_cases h : getMonthYear row.dataRilevamento ∈ acc.map Prod.fst
    · simp only [h, if_true]
    · simp only [h, if_false, get_append_single]
      cases hg : MonthTable.get acc k with
      | none => simp [Ne.symm hk]
      | some x => simp

theorem get_foldl_monthlyStep (rows : List Row) :
    ∀ (acc : MonthTable) (k : Str),
      MonthTable.get (rows.foldl monthlyStep acc) k
        = if k ∈ rows.map rowKey then
            some ((rows.filter (fun r => rowKey r = k)).foldl
              (fun m r => recordValue (rowValue r) m) ((MonthTable.get acc k).getD (newMonth k)))
          else MonthTable.get acc k := by
  induction rows with
  | nil => intro acc k; simp
  | cons r rs ih =>
    intro acc k
    rw [List.foldl_cons, ih, get_monthlyStep]
    by_cases h1 : k = rowKey r
    · subst h1
      by_cases h2 : rowKey r ∈ rs.map rowKey
      · simp [h2, List.filter_cons]
      · simp [h2, List.filter_cons]
        have : rs.filter (fun r2 => decide (rowKey r2 = rowKey r)) = [] := by
          rw [List.filter_eq_nil_iff]
          intro a ha hc
          exact h2 (List.mem_map.2 ⟨a, ha, of_decide_eq_true hc⟩)
        rw [this]; rfl
    · have h3 : ¬ rowKey r = k := fun h => h1 h.symm
      by_cases h2 : k ∈ rs.map rowKey
      · simp [h1, h2, h3, List.filter_cons]
      · simp [h1, h2, h3, List.filter_cons]

theorem get_monthlyData (rows : List Row) (k : Str) :
    MonthTable.get (monthlyData rows) k
      = if k ∈ rows.map rowKey then some (bucket k rows) else none := by
  unfold monthlyData bucket
  rw [get_foldl_monthlyStep]
  simp [MonthTable.get]

theorem keys_foldl_monthlyStep (rows : List Row) :
    ∀ acc : MonthTable,
      (rows.foldl monthlyStep acc).map Prod.fst = (rows.map rowKey).foldl noteKey (acc.map Prod.fst) := by
  induction rows with
  | nil => intro acc; rfl
  | cons r rs ih => intro acc; rw [List.foldl_cons, ih, keys_monthlyStep]; rfl

theorem keys_monthlyData (rows : List Row) :
    (monthlyData rows).map Prod.fst = firstSeen (rows.map rowKey) := by
  unfold monthlyData firstSeen
  rw [keys_foldl_monthlyStep]; rfl

theorem nodup_foldl_noteKey (ks : List Str) :
    ∀ seen : List Str, seen.Nodup → (ks.foldl noteKey seen).Nodup := by
  induction ks with
  | nil => intro seen h; exact h
  | cons k ks ih =>
    intro seen h
    rw [List.foldl_cons]
    apply ih
    unfold noteKey
    by_cases hk : k ∈ seen
    · simp [hk, h]
    · simp only [hk, if_false]
      rw [List.nodup_append]
      refine ⟨h, List.nodup_singleton k, ?_⟩
      intro a ha hb
      rw [List.mem_singleton] at hb
      exact hk (hb ▸ ha)

theorem mem_foldl_noteKey (ks : List Str) :
    ∀ (seen : List Str) (k : Str), k ∈ ks.foldl noteKey seen ↔ k ∈ seen ∨ k ∈ ks := by
  induction ks with
  | nil => intro seen k; simp
  | cons a ks ih =>
    intro seen k
    rw [List.foldl_cons, ih]
    unfold noteKey
    by_cases ha : a ∈ seen
    · simp only [ha, if_true, List.mem_cons]
      constructor
      · rintro (h | h)
        · exact Or.inl h
        · exact Or.inr (Or.inr h)
      · rintro (h | h | h)
        · exact Or.inl h
        · exact Or.inl (h ▸ ha)
        · exact Or.inr h
    · simp only [ha, if_false, List.mem_append, List.mem_singleton, List.mem_cons]
      tauto

theorem nodup_firstSeen (ks : List Str) : (firstSeen ks).Nodup :=
  nodup_foldl_noteKey ks [] List.nodup_nil

theorem mem_firstSeen (ks : List Str) (k : Str) : k ∈ firstSeen ks ↔ k ∈ ks := by
  unfold firstSeen
  rw [mem_foldl_noteKey]; simp

theorem nodup_keys_monthlyData (rows : List Row) : ((monthlyData rows).map Prod.fst).Nodup := by
  rw [keys_monthlyData]; exact nodup_firstSeen _

theorem mem_iff_get (acc : MonthTable) (h : (acc.map Prod.fst).Nodup) (k : Str) (m : MonthAcc) :
    (k, m) ∈ acc ↔ MonthTable.get acc k = some m := by
  induction acc with
  | nil => simp [MonthTable.get]
  | cons p acc ih =>
    rw [List.map_cons, List.nodup_cons] at h
    rw [get_cons, List.mem_cons]
    by_cases hp : p.1 = k
    · simp only [hp, if_true]
      constructor
      · rintro (h1 | h1)
        · rw [← h1]
        · exact absurd (List.mem_map.2 ⟨(k, m), h1, rfl⟩) (hp ▸ h.1)
      · intro h1
        left
        simp only [Option.some.injEq] at h1
        exact Prod.ext hp.symm h1.symm
    · simp only [hp, if_false, ← ih h.2]
      constructor
      · rintro (h1 | h1)
        · exact absurd (by rw [← h1]) hp
        · exact h1
      · intro h1; exact Or.inr h1

theorem mem_monthlyData (rows : List Row) (p : Str × MonthAcc) :
    p ∈ monthlyData rows ↔ p.1 ∈ rows.map rowKey ∧ p.2 = bucket p.1 rows := by
  have h := mem_iff_get (monthlyData rows) (nodup_keys_monthlyData rows) p.1 p.2
  rw [show (p.1, p.2) = p from rfl] at h
  rw [h, get_monthlyData]
  by_cases hk : p.1 ∈ rows.map rowKey
  · simp only [hk, if_true, true_and, Option.some.injEq]
    exact eq_comm
  · simp [hk]

/-! ### What a month object holds -/

theorem recordValue_monthYear (v : Option Num) (m : MonthAcc) :
    (recordValue v m).monthYear = m.monthYear := by
  cases v <;> rfl

theorem recordValue_totalDays (v : Option Num) (m : MonthAcc) :
    (recordValue v m).totalDays = m.totalDays + (if v != none then 1 else 0) := by
  cases v <;> simp [recordValue]

theorem exceeds_none : exceeds none = false := by decide!

theorem recordValue_exceedances (v : Option Num) (m : MonthAcc) :
    (recordValue v m).exceedances = m.exceedances + (if exceeds v then 1 else 0) := by
  cases v with
  | none => simp [recordValue, exceeds_none]
  | some x => by_cases h : exceeds (some x) = true <;> simp [recordValue, h]

theorem recordValue_validValues (v : Option Num) (m : MonthAcc) :
    (recordValue v m).validValues = m.validValues ++ v.toList := by
  cases v <;> simp [recordValue]

theorem foldl_recordValue (rs : List Row) :
    ∀ m : MonthAcc,
      (rs.foldl (fun m r => recordValue (rowValue r) m) m).monthYear = m.monthYear ∧
      (rs.foldl (fun m r => recordValue (rowValue r) m) m).totalDays
        = m.totalDays + rs.countP (fun r => rowValue r != none) ∧
      (rs.foldl (fun m r => recordValue (rowValue r) m) m).exceedances
        = m.exceedances + rs.countP (fun r => exceeds (rowValue r)) ∧
      (rs.foldl (fun m r => recordValue (rowValue r) m) m).validValues
        = m.validValues ++ rs.filterMap rowValue := by
  induction rs with
  | nil => intro m; simp
  | cons r rs ih =>
    intro m
    obtain ⟨h1, h2, h3, h4⟩ := ih (recordValue (rowValue r) m)
    rw [List.foldl_cons]
    refine ⟨?_, ?_, ?_, ?_⟩
    · rw [h1, recordValue_monthYear]
    · rw [h2, recordValue_totalDays, List.countP_cons]; omega
    · rw [h3, recordValue_exceedances, List.countP_cons]; omega
    · rw [h4, recordValue_validValues, List.filterMap_cons]
      cases rowValue r <;> simp

theorem bucket_monthYear (k : Str) (rows : List Row) : (bucket k rows).monthYear = k :=
  (foldl_recordValue _ _).1

theorem bucket_totalDays (k : Str) (rows : List Row) :
    (bucket k rows).totalDays = rows.countP (fun r => rowKey r = k ∧ rowValue r ≠ none) := by
  unfold bucket
  rw [(foldl_recordValue _ _).2.1, List.countP_filter]
  simp [newMonth]
  congr 1
  funext r
  by_cases h1 : rowKey r = k <;> cases rowValue r <;> simp [h1]

theorem bucket_exceedances (k : Str) (rows : List Row) :
    (bucket k rows).exceedances
      = rows.countP (fun r => rowKey r = k ∧ exceeds (rowValue r) = true) := by
  unfold bucket
  rw [(foldl_recordValue _ _).2.2.1, List.countP_filter]
  simp [newMonth]
  congr 1
  funext r
  by_cases h1 : rowKey r = k <;> cases exceeds (rowValue r) <;> simp [h1]

theorem bucket_validValues (k : Str) (rows : List Row) :
    (bucket k rows).validValues = (rows.filter (fun r => rowKey r = k)).filterMap rowValue := by
  unfold bucket
  rw [(foldl_recordValue _ _).2.2.2]
  simp [newMonth]

theorem sortInsert_perm (cmp : α → α → Num) (a : α) (l : List α) :
    (sortInsert cmp a l).Perm (a :: l) := by
  induction l with
  | nil => exact List.Perm.refl _
  | cons b l ih =>
    unfold sortInsert
    by_cases h : sortsAfter cmp a b = true
    · simp only [h, if_true]
      exact ((List.Perm.cons b ih).trans (List.Perm.swap a b l))
    · simp only [h]
      exact List.Perm.refl _

theorem sort_perm (cmp : α → α → Num) (l : List α) : (sort cmp l).Perm l := by
  induction l with
  | nil => exact List.Perm.refl _
  | cons a l ih =>
    unfold sort
    exact (sortInsert_perm cmp a _).trans (List.Perm.cons a ih)

theorem monthlyStats_perm (rows : List Row) :
    (monthlyStats rows).Perm ((monthlyData rows).map (fun p => finalizeMonth p.2)) := by
  unfold monthlyStats
  rw [List.map_map]
  exact sort_perm _ _

theorem mem_monthlyStats (rows : List Row) (e : MonthStat) :
    e ∈ monthlyStats rows ↔ ∃ k ∈ rows.map rowKey, e = finalizeMonth (bucket k rows) := by
  rw [(monthlyStats_perm rows).mem_iff, List.mem_map]
  constructor
  · rintro ⟨p, hp, rfl⟩
    obtain ⟨h1, h2⟩ := (mem_monthlyData rows p).1 hp
    exact ⟨p.1, h1, by rw [h2]⟩
  · rintro ⟨k, hk, rfl⟩
    exact ⟨(k, bucket k rows), (mem_monthlyData rows _).2 ⟨hk, rfl⟩, rfl⟩

theorem monthYear_monthlyStats (rows : List Row) :
    ((monthlyStats rows).map (fun e => e.monthYear)).Perm (firstSeen (rows.map rowKey)) := by
  refine ((monthlyStats_perm rows).map _).trans ?_
  rw [List.map_map, ← keys_monthlyData]
  apply List.Perm.of_eq
  apply List.map_congr_left
  intro p hp
  obtain ⟨_, h2⟩ := (mem_monthlyData rows p).1 hp
  show (finalizeMonth p.2).monthYear = p.1
  rw [h2]
  exact bucket_monthYear _ _

theorem nodup_monthYear_monthlyStats (rows : List Row) :
    ((monthlyStats rows).map (fun e => e.monthYear)).Nodup :=
  (monthYear_monthlyStats rows).nodup_iff.2 (nodup_firstSeen _)

/-! ### Totals over the months -/

theorem sum_modify (g : MonthAcc → Nat) (f : MonthAcc → MonthAcc) (d : Nat)
    (hf : ∀ m, g (f m) = g m + d) (k : Str) (acc : MonthTable)
    (hn : (acc.map Prod.fst).Nodup) (hk : k ∈ acc.map Prod.fst) :
    ((MonthTable.modify acc k f).map (fun p => g p.2)).sum
      = (acc.map (fun p => g p.2)).sum + d := by
  induction acc with
  | nil => simp at hk
  | cons p acc ih =>
    rw [List.map_cons, List.nodup_cons] at hn
    have hm : MonthTable.modify (p :: acc) k f
        = (if p.1 = k then (p.1, f p.2) else p) :: MonthTable.modify acc k f := by
      simp [MonthTable.modify]
    rw [hm]
    by_cases hp : p.1 = k
    · have hnot : k ∉ acc.map Prod.fst := hp ▸ hn.1
      rw [modify_of_not_mem acc k f hnot]
      simp only [hp, if_true, List.map_cons, List.sum_cons, hf]
      omega
    · have hk2 : k ∈ acc.map Prod.fst := by
        rw [List.map_cons, List.mem_cons] at hk
        rcases hk with h | h
        · exact absurd h.symm hp
        · exact h
      simp only [hp, if_false, List.map_cons, List.sum_cons, ih hn.2 hk2]
      omega

theorem nodup_noteKey (seen : List Str) (k : Str) (h : seen.Nodup) : (noteKey seen k).Nodup :=
  nodup_foldl_noteKey [k] seen h

theorem mem_noteKey_self (seen : List Str) (k : Str) : k ∈ noteKey seen k := by
  unfold noteKey
  by_cases h : k ∈ seen <;> simp [h]

theorem sum_monthlyStep (g : MonthAcc → Nat) (d : Row → Nat) (hnew : ∀ k, g (newMonth k) = 0)
    (hf : ∀ row m, g (recordValue (rowValue row) m) = g m + d row)
    (acc : MonthTable) (row : Row) (hn : (acc.map Prod.fst).Nodup) :
    ((monthlyStep acc row).map (fun p => g p.2)).sum = (acc.map (fun p => g p.2)).sum + d row := by
  rw [monthlyStep_eq]
  have hkeys : (if getMonthYear row.dataRilevamento ∈ acc.map Prod.fst then acc
        else acc ++ [(getMonthYear row.dataRilevamento, newMonth (getMonthYear row.dataRilevamento))]).map
        Prod.fst = noteKey (acc.map Prod.fst) (rowKey row) := by
    unfold noteKey rowKey
    by_cases h : getMonthYear row.dataRilevamento ∈ acc.map Prod.fst <;> simp [h]
  rw [sum_modify g _ (d row) (hf row) _ _ (hkeys ▸ nodup_noteKey _ _ hn)
    (hkeys ▸ mem_noteKey_self _ _)]
  by_cases h : getMonthYear row.dataRilevamento ∈ acc.map Prod.fst
  · simp only [h, if_true]
  · simp [h, hnew]

theorem sum_foldl_monthlyStep (g : MonthAcc → Nat) (d : Row → Nat) (hnew : ∀ k, g (newMonth k) = 0)
    (hf : ∀ row m, g (recordValue (rowValue row) m) = g m + d row) (rows : List Row) :
    ∀ acc : MonthTable, (acc.map Prod.fst).Nodup →
      ((rows.foldl monthlyStep acc).map (fun p => g p.2)).sum
        = (acc.map (fun p => g p.2)).sum + (rows.map d).sum := by
  induction rows with
  | nil => intro acc _; simp
  | cons r rs ih =>
    intro acc hn
    rw [List.foldl_cons, ih _ (by rw [keys_monthlyStep]; exact nodup_noteKey _ _ hn),
      sum_monthlyStep g d hnew hf acc r hn, List.map_cons, List.sum_cons]
    omega

theorem sum_map_indicator (p : Row → Bool) (rows : List Row) :
    (rows.map (fun r => if p r then 1 else 0)).sum = rows.countP p := by
  induction rows with
  | nil => rfl
  | cons r rs ih =>
    rw [List.map_cons, List.sum_cons, ih, List.countP_cons]
    by_cases h : p r = true <;> simp [h, Nat.add_comm]

theorem processedData_eq (rows : List Row) :
    processedData rows
      = (rows.filter (fun r => rowValue r != none)).map
          (fun r => ({ date := r.dataRilevamento, value := rowValue r } : Reading)) := by
  unfold processedData
  rw [List.filter_map]
  rfl

theorem validValues_eq (rows : List Row) :
    (processedData rows).filter (fun d => d.value != none) = processedData rows := by
  unfold processedData
  rw [List.filter_filter]
  simp

theorem stats_count (rows : List Row) :
    (stats (processedData rows)).count = rows.countP (fun r => rowValue r != none) := by
  show ((processedData rows).filter (fun d => d.value != none)).length = _
  rw [validValues_eq, processedData_eq, List.length_map, List.countP_eq_length_filter]

theorem stats_exceedances (rows : List Row) :
    (stats (processedData rows)).exceedances = rows.countP (fun r => exceeds (rowValue r)) := by
  show (((processedData rows).filter (fun d => d.value != none)).filter
    (fun d => exceeds d.value)).length = _
  rw [validValues_eq, processedData_eq, ← List.countP_eq_length_filter, List.countP_map,
    List.countP_filter]
  apply List.countP_congr
  intro r _
  simp only [Function.comp, Bool.and_eq_true, bne_iff_ne, ne_eq]
  constructor
  · intro h; exact h.1
  · intro h
    refine ⟨h, ?_⟩
    intro hn
    rw [hn, exceeds_none] at h
    exact absurd h (by simp)

/-- C2: the totalDays of the monthly entries add up to the count of the overall
statistics, for every sequence of records. -/
theorem sum_totalDays_eq_count (rows : List Row) :
    ((loadData rows).monthlyStats.map (fun e => e.totalDays)).sum = (loadData rows).stats.count := by
  show ((monthlyStats rows).map (fun e => e.totalDays)).sum = (stats (processedData rows)).count
  rw [((monthlyStats_perm rows).map _).sum_eq, List.map_map, stats_count]
  have h := sum_foldl_monthlyStep (fun m => m.totalDays)
    (fun r => if rowValue r != none then 1 else 0) (fun _ => rfl)
    (fun row m => recordValue_totalDays _ m) rows [] List.nodup_nil
  rw [sum_map_indicator] at h
  simpa [monthlyData, finalizeMonth, Function.comp] using h

/-- C3: the exceedances of the monthly entries add up to the exceedances of the
overall statistics (readings with value > 25), for every sequence of records. -/
theorem sum_exceedances_eq_exceedances (rows : List Row) :
    ((loadData rows).monthlyStats.map (fun e => e.exceedances)).sum
      = (loadData rows).stats.exceedances ∧
    (loadData rows).stats.exceedances
      = rows.countP (fun r => Num.gt (nullToNumber (rowValue r)) (Num.fin 25)) := by
  refine ⟨?_, stats_exceedances rows⟩
  show ((monthlyStats rows).map (fun e => e.exceedances)).sum
    = (stats (processedData rows)).exceedances
  rw [((monthlyStats_perm rows).map _).sum_eq, List.map_map, stats_exceedances]
  have h := sum_foldl_monthlyStep (fun m => m.exceedances)
    (fun r => if exceeds (rowValue r) then 1 else 0) (fun _ => rfl)
    (fun row m => recordValue_exceedances _ m) rows [] List.nodup_nil
  rw [sum_map_indicator] at h
  simpa [monthlyData, finalizeMonth, Function.comp] using h

/-! ### The overall statistics do not depend on the order -/

theorem mathMinLoop_nan (l : List Num) : mathMinLoop Num.nan l = Num.nan := by
  induction l with
  | nil => rfl
  | cons n l ih =>
    unfold mathMinLoop
    by_cases h : n = Num.nan
    · simp [h]
    · have : Num.lt n Num.nan = false := by cases n <;> rfl
      simp [h, this, ih]

theorem processedData_nil_of_empty (rows : List Row) (h : ∀ r ∈ rows, r.valore = []) :
    processedData rows = [] := by
  rw [processedData_eq, List.map_eq_nil_iff, List.filter_eq_nil_iff]
  intro r hr
  simp [rowValue, h r hr]

/-- C4, on the code: with no record at all the average of the overall statistics
is NaN, the minimum is +Infinity and the maximum is -Infinity, next to count 0. -/
theorem stats_empty_input_is_nan :
    (loadData []).stats.count = 0 ∧ (loadData []).stats.avg = Num.nan ∧
    (loadData []).stats.min = Num.posInf ∧ (loadData []).stats.max = Num.negInf := by
  decide!

/-- C4, amended: when every record has an empty value field (in particular when
there is no record), the overall statistics are count 0, exceedances 0,
min +Infinity, max -Infinity and avg NaN, and the reading series is empty. -/
theorem stats_of_no_valid_reading (rows : List Row) (h : ∀ r ∈ rows, r.valore = []) :
    (loadData rows).stats
      = { count := 0, min := Num.posInf, max := Num.negInf, avg := Num.nan, exceedances := 0 } ∧
    (loadData rows).data = [] := by
  have hp := processedData_nil_of_empty rows h
  refine ⟨?_, hp⟩
  show stats (processedData rows) = _
  rw [hp]
  decide!

theorem stats_of_no_valid_reading_witness :
    (∀ r ∈ ([⟨"09/11/2023".toList, []⟩, ⟨"10/11/2023".toList, []⟩] : List Row), r.valore = []) ∧
    (loadData [⟨"09/11/2023".toList, []⟩, ⟨"10/11/2023".toList, []⟩]).stats
      = { count := 0, min := Num.posInf, max := Num.negInf, avg := Num.nan, exceedances := 0 } ∧
    (loadData [⟨"09/11/2023".toList, []⟩, ⟨"10/11/2023".toList, []⟩]).data = [] :=
  ⟨by decide, stats_of_no_valid_reading _ (by decide)⟩

/-! ### Dates that are not of the expected form -/

theorem split_of_not_mem (sep : Char) (s : Str) (h : sep ∉ s) : split sep s = [s] := by
  induction s with
  | nil => rfl
  | cons c cs ih =>
    rw [List.mem_cons, not_or] at h
    have hc : ¬ c = sep := fun h2 => h.1 h2.symm
    unfold split
    simp only [hc, if_false, ih h.2]

theorem getMonthYear_of_no_slash (s : Str) (h : '/' ∉ s) :
    getMonthYear s = "undefined/undefined".toList := by
  unfold getMonthYear
  rw [split_of_not_mem _ _ h]
  rfl

/-- C7, on the code: the single record dated 2023-11-08 with value 30 is filed
under the key undefined/undefined and counted there. -/
theorem malformed_date_is_bucketed :
    (loadData [⟨"2023-11-08".toList, "30".toList⟩]).monthlyStats
      = [{ monthYear := "undefined/undefined".toList, totalDays := 1, exceedances := 1,
           avgValue := Num.fin 30, validValues := [Num.fin 30],
           exceedancePercentage := some "100.0".toList }] := by
  decide!

/-- C7, amended: the monthly aggregation has no error path. Every record,
whatever its date, is filed under the key made of the second and third pieces
of its date split at the slash (a missing piece reading undefined, so that a
date without slash goes under undefined/undefined); the monthly list has
exactly one entry with that key, and the totalDays of that entry is the number
of records filed under the key with a non-null value, so the record is counted
there when its value is non-null. -/
theorem every_record_is_bucketed (rows : List Row) (r : Row) (hr : r ∈ rows) :
    (∃ e ∈ (loadData rows).monthlyStats,
      e.monthYear = getMonthYear r.dataRilevamento ∧
      e.totalDays = rows.countP
        (fun r2 => getMonthYear r2.dataRilevamento = getMonthYear r.dataRilevamento ∧
          rowValue r2 ≠ none) ∧
      (rowValue r ≠ none → 1 ≤ e.totalDays) ∧
      ∀ e2 ∈ (loadData rows).monthlyStats, e2.monthYear = getMonthYear r.dataRilevamento → e2 = e) ∧
    ('/' ∉ r.dataRilevamento → getMonthYear r.dataRilevamento = "undefined/undefined".toList) := by
  refine ⟨⟨finalizeMonth (bucket (rowKey r) rows), ?_, ?_, ?_, ?_, ?_⟩,
    getMonthYear_of_no_slash _⟩
  · exact (mem_monthlyStats rows _).2 ⟨rowKey r, List.mem_map.2 ⟨r, hr, rfl⟩, rfl⟩
  · exact bucket_monthYear _ _
  · exact bucket_totalDays _ _
  · intro hv
    show 1 ≤ (bucket (rowKey r) rows).totalDays
    rw [bucket_totalDays]
    apply List.countP_pos_iff.2
    exact ⟨r, hr, by simp [hv]⟩
  · intro e2 he2 hk
    obtain ⟨k, _, rfl⟩ := (mem_monthlyStats rows e2).1 he2
    have : k = rowKey r := by
      have h2 : (finalizeMonth (bucket k rows)).monthYear = k := bucket_monthYear _ _
      rw [← h2]; exact hk
    rw [this]

theorem every_record_is_bucketed_witness :
    (⟨"2023-11-08".toList, "30".toList⟩ : Row)
      ∈ ([⟨"07/11/2023".toList, "12".toList⟩, ⟨"2023-11-08".toList, "30".toList⟩] : List Row) ∧
    ((∃ e ∈ (loadData [⟨"07/11/2023".toList, "12".toList⟩,
          ⟨"2023-11-08".toList, "30".toList⟩]).monthlyStats,
      e.monthYear = getMonthYear "2023-11-08".toList ∧
      e.totalDays = ([⟨"07/11/2023".toList, "12".toList⟩,
          ⟨"2023-11-08".toList, "30".toList⟩] : List Row).countP
        (fun r2 => getMonthYear r2.dataRilevamento = getMonthYear "2023-11-08".toList ∧
          rowValue r2 ≠ none) ∧
      (rowValue ⟨"2023-11-08".toList, "30".toList⟩ ≠ none → 1 ≤ e.totalDays) ∧
      ∀ e2 ∈ (loadData [⟨"07/11/2023".toList, "12".toList⟩,
          ⟨"2023-11-08".toList, "30".toList⟩]).monthlyStats,
        e2.monthYear = getMonthYear "2023-11-08".toList → e2 = e) ∧
    ('/' ∉ "2023-11-08".toList → getMonthYear "2023-11-08".toList = "undefined/undefined".toList)) :=
  ⟨by decide, every_record_is_bucketed _ _ (List.mem_cons_of_mem _ (List.mem_cons_self _ _))⟩

/-! ### A value field that is not a number -/

theorem mathMinLoop_of_mem_nan (l : List Num) (h : Num.nan ∈ l) :
    ∀ lo, mathMinLoop lo l = Num.nan := by
  induction l with
  | nil => simp at h
  | cons n l ih =>
    intro lo
    unfold mathMinLoop
    by_cases hn : n = Num.nan
    · simp [hn]
    · simp only [hn, if_false]
      rw [List.mem_cons] at h
      rcases h with h | h
      · exact absurd h.symm hn
      · exact ih h _

theorem mathMaxLoop_of_mem_nan (l : List Num) (h : Num.nan ∈ l) :
    ∀ hi, mathMaxLoop hi l = Num.nan := by
  induction l with
  | nil => simp at h
  | cons n l ih =>
    intro hi
    unfold mathMaxLoop
    by_cases hn : n = Num.nan
    · simp [hn]
    · simp only [hn, if_false]
      rw [List.mem_cons] at h
      rcases h with h | h
      · exact absurd h.symm hn
      · exact ih h _

theorem Num.nan_add (a : Num) : Num.add Num.nan a = Num.nan := by cases a <;> rfl

theorem Num.add_nan (a : Num) : Num.add a Num.nan = Num.nan := by cases a <;> rfl

theorem foldl_add_nan (l : List Reading) :
    l.foldl (fun acc curr => Num.add acc (nullToNumber curr.value)) Num.nan = Num.nan := by
  induction l with
  | nil => rfl
  | cons x l ih => rw [List.foldl_cons, Num.nan_add, ih]

theorem foldl_add_of_mem_nan (l : List Reading) (h : ∃ d ∈ l, d.value = some Num.nan) :
    ∀ a, l.foldl (fun acc curr => Num.add acc (nullToNumber curr.value)) a = Num.nan := by
  induction l with
  | nil => simp at h
  | cons x l ih =>
    intro a
    rw [List.foldl_cons]
    obtain ⟨d, hd, hv⟩ := h
    rw [List.mem_cons] at hd
    rcases hd with hd | hd
    · subst hd
      rw [hv]
      show List.foldl _ (Num.add a Num.nan) l = _
      rw [Num.add_nan, foldl_add_nan]
    · exact ih ⟨d, hd, hv⟩ _

theorem stats_of_mem_nan (l : List Reading) (h : ∃ d ∈ l, d.value = some Num.nan) :
    (stats l).min = Num.nan ∧ (stats l).max = Num.nan ∧ (stats l).avg = Num.nan := by
  obtain ⟨d, hd, hv⟩ := h
  have hmem : d ∈ l.filter (fun d => d.value != none) := by
    rw [List.mem_filter]; exact ⟨hd, by simp [hv]⟩
  have hnan : Num.nan ∈ (l.filter (fun d => d.value != none)).map (fun d => nullToNumber d.value) :=
    List.mem_map.2 ⟨d, hmem, by rw [hv]; rfl⟩
  refine ⟨mathMinLoop_of_mem_nan _ hnan _, mathMaxLoop_of_mem_nan _ hnan _, ?_⟩
  show Num.div (List.foldl _ _ _) _ = _
  rw [foldl_add_of_mem_nan _ ⟨d, hmem, hv⟩]
  rfl

theorem sortInsert_map_congr (f : α → β) (cmp : α → α → Num)
    (hc : ∀ a b a2 b2, f a = f a2 → f b = f b2 → cmp a b = cmp a2 b2) (a b : α) (hab : f a = f b) :
    ∀ s1 s2 : List α, s1.map f = s2.map f →
      (sortInsert cmp a s1).map f = (sortInsert cmp b s2).map f := by
  intro s1
  induction s1 with
  | nil =>
    intro s2 h
    cases s2 with
    | nil => simp [sortInsert, hab]
    | cons y s2 => simp at h
  | cons x s1 ih =>
    intro s2 h
    cases s2 with
    | nil => simp at h
    | cons y s2 =>
      rw [List.map_cons, List.map_cons, List.cons.injEq] at h
      unfold sortInsert
      have hs : sortsAfter cmp a x = sortsAfter cmp b y := by
        unfold sortsAfter; rw [hc a x b y hab h.1]
      rw [hs]
      by_cases hy : sortsAfter cmp b y = true
      · simp only [hy, if_true, List.map_cons, h.1, ih s2 h.2]
      · have hy2 : sortsAfter cmp b y = false := by simpa using hy
        simp [hy2, hab, h.1, h.2]

theorem sort_map_congr (f : α → β) (cmp : α → α → Num)
    (hc : ∀ a b a2 b2, f a = f a2 → f b = f b2 → cmp a b = cmp a2 b2) :
    ∀ l1 l2 : List α, l1.map f = l2.map f → (sort cmp l1).map f = (sort cmp l2).map f := by
  intro l1
  induction l1 with
  | nil =>
    intro l2 h
    cases l2 with
    | nil => rfl
    | cons y l2 => simp at h
  | cons x l1 ih =>
    intro l2 h
    cases l2 with
    | nil => simp at h
    | cons y l2 =>
      rw [List.map_cons, List.map_cons, List.cons.injEq] at h
      unfold sort
      exact sortInsert_map_congr f cmp hc x y h.1 _ _ (ih l2 h.2)

theorem monthYear_unsorted (rows : List Row) :
    (((monthlyData rows).map (fun p => p.2)).map finalizeMonth).map (fun e => e.monthYear)
      = firstSeen (rows.map rowKey) := by
  rw [List.map_map, List.map_map, ← keys_monthlyData]
  apply List.map_congr_left
  intro p hp
  obtain ⟨_, h2⟩ := (mem_monthlyData rows p).1 hp
  show (finalizeMonth p.2).monthYear = p.1
  rw [h2]
  exact bucket_monthYear _ _

theorem monthYear_monthlyStats_congr (rows1 rows2 : List Row)
    (h : rows1.map rowKey = rows2.map rowKey) :
    (monthlyStats rows1).map (fun e => e.monthYear) = (monthlyStats rows2).map (fun e => e.monthYear) := by
  unfold monthlyStats
  apply sort_map_congr (fun e : MonthStat => e.monthYear) compareMonths
  · intro a b a2 b2 h1 h2
    unfold compareMonths
    have h3 : a.monthYear = a2.monthYear := h1
    have h4 : b.monthYear = b2.monthYear := h2
    rw [h3, h4]
  · rw [monthYear_unsorted, monthYear_unsorted, h]

/-- C5, on the code: a record whose value field is abc is kept as a reading with
value NaN and counted, while the same record with an empty value field is
dropped. -/
theorem unparseable_differs_from_empty :
    (loadData [⟨"08/11/2023".toList, "abc".toList⟩]).stats.count = 1 ∧
    (loadData [⟨"08/11/2023".toList, []⟩]).stats.count = 0 ∧
    (loadData [⟨"08/11/2023".toList, "abc".toList⟩]).data
      = [{ date := "08/11/2023".toList, value := some Num.nan }] ∧
    (loadData [⟨"08/11/2023".toList, []⟩]).data = [] ∧
    (loadData [⟨"08/11/2023".toList, "abc".toList⟩]).monthlyStats.map (fun e => e.totalDays) = [1] ∧
    (loadData [⟨"08/11/2023".toList, []⟩]).monthlyStats.map (fun e => e.totalDays) = [0] := by
  decide!

theorem exceeds_nan : exceeds (some Num.nan) = false := by decide!

/-- C5, amended: a record whose value field is not empty and is read as NaN by
parseFloat (such as abc) is not a missing reading. Compared with the same
input where that field is empty: the record stays in the reading series with
value NaN, count is one more, the overall exceedances are the same, min, max
and avg are NaN, the monthly list has the same keys in the same order, and in
each monthly entry the exceedances are the same while totalDays is one more
for the entry of the record and the same for the others. The pass does not
abort: these are equations between values the pass returns. -/
theorem unparseable_value_is_counted (pre post : List Row) (d v : Str) (hv : v ≠ [])
    (hnan : parseFloat v = Num.nan) :
    (loadData (pre ++ ⟨d, v⟩ :: post)).data
      = (loadData pre).data ++ { date := d, value := some Num.nan } :: (loadData post).data ∧
    (loadData (pre ++ ⟨d, []⟩ :: post)).data = (loadData pre).data ++ (loadData post).data ∧
    (loadData (pre ++ ⟨d, v⟩ :: post)).stats.count
      = (loadData (pre ++ ⟨d, []⟩ :: post)).stats.count + 1 ∧
    (loadData (pre ++ ⟨d, v⟩ :: post)).stats.exceedances
      = (loadData (pre ++ ⟨d, []⟩ :: post)).stats.exceedances ∧
    (loadData (pre ++ ⟨d, v⟩ :: post)).stats.min = Num.nan ∧
    (loadData (pre ++ ⟨d, v⟩ :: post)).stats.max = Num.nan ∧
    (loadData (pre ++ ⟨d, v⟩ :: post)).stats.avg = Num.nan ∧
    (loadData (pre ++ ⟨d, v⟩ :: post)).monthlyStats.map (fun e => e.monthYear)
      = (loadData (pre ++ ⟨d, []⟩ :: post)).monthlyStats.map (fun e => e.monthYear) ∧
    ∀ eA ∈ (loadData (pre ++ ⟨d, v⟩ :: post)).monthlyStats,
      ∀ eE ∈ (loadData (pre ++ ⟨d, []⟩ :: post)).monthlyStats,
        eA.monthYear = eE.monthYear →
          eA.exceedances = eE.exceedances ∧
          eA.totalDays = eE.totalDays + (if eE.monthYear = getMonthYear d then 1 else 0) := by
  have hvA : rowValue ⟨d, v⟩ = some Num.nan := by simp [rowValue, hv, hnan]
  have hvE : rowValue ⟨d, []⟩ = none := by simp [rowValue]
  have hdataA : processedData (pre ++ ⟨d, v⟩ :: post)
      = processedData pre ++ { date := d, value := some Num.nan } :: processedData post := by
    simp only [processedData_eq, List.filter_append, List.filter_cons, hvA, List.map_append]
    simp [hvA]
  have hdataE : processedData (pre ++ ⟨d, []⟩ :: post)
      = processedData pre ++ processedData post := by
    simp only [processedData_eq, List.filter_append, List.filter_cons, hvE, List.map_append]
    simp [hvE]
  have hnanmem : ∃ x ∈ processedData (pre ++ ⟨d, v⟩ :: post), x.value = some Num.nan := by
    rw [hdataA]; exact ⟨_, List.mem_append_right _ (List.mem_cons_self _ _), rfl⟩
  obtain ⟨hmin, hmax, havg⟩ := stats_of_mem_nan _ hnanmem
  refine ⟨hdataA, hdataE, ?_, ?_, hmin, hmax, havg, ?_, ?_⟩
  · show (stats (processedData _)).count = (stats (processedData _)).count + 1
    rw [stats_count, stats_count, List.countP_append, List.countP_append, List.countP_cons,
      List.countP_cons, hvA, hvE]
    simp
    omega
  · show (stats (processedData _)).exceedances = (stats (processedData _)).exceedances
    rw [stats_exceedances, stats_exceedances, List.countP_append, List.countP_append,
      List.countP_cons, List.countP_cons, hvA, hvE, exceeds_nan, exceeds_none]
  · apply monthYear_monthlyStats_congr
    simp [rowKey]
  · intro eA hA eE hE hk
    obtain ⟨kA, _, rfl⟩ := (mem_monthlyStats _ eA).1 hA
    obtain ⟨kE, _, rfl⟩ := (mem_monthlyStats _ eE).1 hE
    have h1 : (finalizeMonth (bucket kA (pre ++ ⟨d, v⟩ :: post))).monthYear = kA :=
      bucket_monthYear _ _
    have h2 : (finalizeMonth (bucket kE (pre ++ ⟨d, []⟩ :: post))).monthYear = kE :=
      bucket_monthYear _ _
    have hkk : kA = kE := by rw [← h1, ← h2]; exact hk
    subst hkk
    rw [h2]
    constructor
    · show (bucket kA _).exceedances = (bucket kA _).exceedances
      rw [bucket_exceedances, bucket_exceedances, List.countP_append, List.countP_append,
        List.countP_cons, List.countP_cons, hvA, hvE, exceeds_nan, exceeds_none]
      simp
    · show (bucket kA _).totalDays = (bucket kA _).totalDays + _
      rw [bucket_totalDays, bucket_totalDays, List.countP_append, List.countP_append,
        List.countP_cons, List.countP_cons, hvA, hvE]
      by_cases hkd : kA = getMonthYear d
      · simp [rowKey, hkd]; omega
      · have : ¬ getMonthYear d = kA := fun h => hkd h.symm
        simp [rowKey, hkd, this]

theorem unparseable_value_is_counted_witness :
    ("abc".toList ≠ [] ∧ parseFloat "abc".toList = Num.nan) ∧
    ((loadData ([⟨"07/11/2023".toList, "12".toList⟩] ++ ⟨"08/11/2023".toList, "abc".toList⟩ ::
        [⟨"03/12/2023".toList, "31".toList⟩])).data
      = (loadData [⟨"07/11/2023".toList, "12".toList⟩]).data ++
          { date := "08/11/2023".toList, value := some Num.nan } ::
          (loadData [⟨"03/12/2023".toList, "31".toList⟩]).data ∧
    (loadData ([⟨"07/11/2023".toList, "12".toList⟩] ++ ⟨"08/11/2023".toList, []⟩ ::
        [⟨"03/12/2023".toList, "31".toList⟩])).data
      = (loadData [⟨"07/11/2023".toList, "12".toList⟩]).data ++
          (loadData [⟨"03/12/2023".toList, "31".toList⟩]).data ∧
    (loadData ([⟨"07/11/2023".toList, "12".toList⟩] ++ ⟨"08/11/2023".toList, "abc".toList⟩ ::
        [⟨"03/12/2023".toList, "31".toList⟩])).stats.count
      = (loadData ([⟨"07/11/2023".toList, "12".toList⟩] ++ ⟨"08/11/2023".toList, []⟩ ::
        [⟨"03/12/2023".toList, "31".toList⟩])).stats.count + 1 ∧
    (loadData ([⟨"07/11/2023".toList, "12".toList⟩] ++ ⟨"08/11/2023".toList, "abc".toList⟩ ::
        [⟨"03/12/2023".toList, "31".toList⟩])).stats.exceedances
      = (loadData ([⟨"07/11/2023".toList, "12".toList⟩] ++ ⟨"08/11/2023".toList, []⟩ ::
        [⟨"03/12/2023".toList, "31".toList⟩])).stats.exceedances ∧
    (loadData ([⟨"07/11/2023".toList, "12".toList⟩] ++ ⟨"08/11/2023".toList, "abc".toList⟩ ::
        [⟨"03/12/2023".toList, "31".toList⟩])).stats.min = Num.nan ∧
    (loadData ([⟨"07/11/2023".toList, "12".toList⟩] ++ ⟨"08/11/2023".toList, "abc".toList⟩ ::
        [⟨"03/12/2023".toList, "31".toList⟩])).stats.max = Num.nan ∧
    (loadData ([⟨"07/11/2023".toList, "12".toList⟩] ++ ⟨"08/11/2023".toList, "abc".toList⟩ ::
        [⟨"03/12/2023".toList, "31".toList⟩])).stats.avg = Num.nan ∧
    (loadData ([⟨"07/11/2023".toList, "12".toList⟩] ++ ⟨"08/11/2023".toList, "abc".toList⟩ ::
        [⟨"03/12/2023".toList, "31".toList⟩])).monthlyStats.map (fun e => e.monthYear)
      = (loadData ([⟨"07/11/2023".toList, "12".toList⟩] ++ ⟨"08/11/2023".toList, []⟩ ::
        [⟨"03/12/2023".toList, "31".toList⟩])).monthlyStats.map (fun e => e.monthYear) ∧
    ∀ eA ∈ (loadData ([⟨"07/11/2023".toList, "12".toList⟩] ++
        ⟨"08/11/2023".toList, "abc".toList⟩ :: [⟨"03/12/2023".toList, "31".toList⟩])).monthlyStats,
      ∀ eE ∈ (loadData ([⟨"07/11/2023".toList, "12".toList⟩] ++ ⟨"08/11/2023".toList, []⟩ ::
          [⟨"03/12/2023".toList, "31".toList⟩])).monthlyStats,
        eA.monthYear = eE.monthYear →
          eA.exceedances = eE.exceedances ∧
          eA.totalDays
            = eE.totalDays + (if eE.monthYear = getMonthYear "08/11/2023".toList then 1 else 0)) :=
  ⟨⟨by decide, by decide⟩,
    unparseable_value_is_counted _ _ _ _ (by decide) (by decide)⟩

/-! ### The percentage of a month -/

theorem digit_ne_slash (c : Char) (h : isDecimalDigit c = true) : c ≠ '/' := by
  intro hc; subst hc; revert h; decide

theorem digit_not_white (c : Char) (h : isDecimalDigit c = true) : isStrWhiteSpaceChar c = false := by
  unfold isDecimalDigit at h
  unfold isStrWhiteSpaceChar
  simp only [Bool.and_eq_true, decide_eq_true_eq] at h
  simp only [decide_eq_false_iff_not, List.mem_cons, List.mem_singleton, not_or,
    List.not_mem_nil, not_false_eq_true, and_true]
  omega

theorem digit_facts (c : Char) (h : isDecimalDigit c = true) :
    c ≠ '-' ∧ c ≠ '+' ∧ c ≠ 'I' ∧ c ≠ '.' ∧ c ≠ 'e' ∧ c ≠ 'E' := by
  refine ⟨?_, ?_, ?_, ?_, ?_, ?_⟩ <;> (intro hc; subst hc; revert h; decide)

theorem dropWhile_of_head (p : Char → Bool) (l : List Char) (h : ∀ c ∈ l.head?, p c = false) :
    l.dropWhile p = l := by
  cases l with
  | nil => rfl
  | cons c cs => simp [List.dropWhile, h c (by simp)]

theorem trimWhiteSpace_digits (ds : List Char) (h : ∀ c ∈ ds, isDecimalDigit c = true) :
    trimWhiteSpace ds = ds := by
  unfold trimWhiteSpace
  rw [dropWhile_of_head _ ds, dropWhile_of_head _ ds.reverse, List.reverse_reverse]
  · intro c hc
    apply digit_not_white
    apply h
    rw [← List.mem_reverse]
    exact List.mem_of_mem_head? hc
  · intro c hc
    exact digit_not_white c (h c (List.mem_of_mem_head? hc))

theorem scanUnsignedDecimal_digits (ds : List Char) (hne : ds ≠ [])
    (h : ∀ c ∈ ds, isDecimalDigit c = true) :
    scanUnsignedDecimal ds = some (Num.fin (digitsVal ds : ℚ), []) := by
  have htake : ds.takeWhile isDecimalDigit = ds := List.takeWhile_eq_self_iff.2 h
  have hdrop : ds.dropWhile isDecimalDigit = [] := List.dropWhile_eq_nil_iff.2 h
  have hinf : ¬ ("Infinity".toList <+: ds) := by
    cases ds with
    | nil => exact absurd rfl hne
    | cons c cs =>
      intro hp
      have hc : 'I' = c := (List.cons_prefix_cons.1 hp).1
      exact (digit_facts c (h c (List.mem_cons_self _ _))).2.2.1 hc.symm
  unfold scanUnsignedDecimal
  simp only [hinf, if_false, htake, hdrop, hne, false_and, scanExponent]
  simp [digitsVal]

theorem scanDecimal_digits (ds : List Char) (hne : ds ≠ [])
    (h : ∀ c ∈ ds, isDecimalDigit c = true) :
    scanDecimal ds = some (Num.fin (digitsVal ds : ℚ), []) := by
  unfold scanDecimal
  split
  · rename_i r
    exact absurd rfl (digit_facts '-' (h '-' (List.mem_cons_self _ _))).1
  · rename_i r
    exact absurd rfl (digit_facts '+' (h '+' (List.mem_cons_self _ _))).2.1
  · exact scanUnsignedDecimal_digits ds hne h

theorem stringToNumber_digits (ds : List Char) (hne : ds ≠ [])
    (h : ∀ c ∈ ds, isDecimalDigit c = true) :
    stringToNumber ds = Num.fin (digitsVal ds : ℚ) := by
  unfold stringToNumber
  simp only [trimWhiteSpace_digits ds h, hne, if_false, scanDecimal_digits ds hne h]

theorem char_eq_of_toNat_eq (a b : Char) (h : a.toNat = b.toNat) : a = b := by
  rw [← Char.ofNat_toNat a, ← Char.ofNat_toNat b, h]

theorem split_nil (sep : Char) : split sep [] = [[]] := rfl

theorem split_sep_cons (sep : Char) (cs : Str) : split sep (sep :: cs) = [] :: split sep cs := by
  simp [split]

theorem split_ne_nil (sep : Char) (s : Str) : split sep s ≠ [] := by
  cases s with
  | nil => simp [split]
  | cons c cs =>
    unfold split
    by_cases h : c = sep
    · simp [h]
    · simp only [h, if_false]
      split <;> simp

theorem split_digit_cons (c : Char) (cs : Str) (h : isDecimalDigit c = true) :
    split '/' (c :: cs) = (c :: (split '/' cs).head!) :: (split '/' cs).tail := by
  have hc : ¬ c = '/' := digit_ne_slash c h
  have hne := split_ne_nil '/' cs
  conv_lhs => unfold split
  simp only [hc, if_false]
  cases hs : split '/' cs with
  | nil => exact absurd hs hne
  | cons p ps => rfl

theorem isDDMMYYYY_elim (s : Str) (h : isDDMMYYYY s = true) :
    ∃ d1 d2 m1 m2 y1 y2 y3 y4,
      s = [d1, d2, '/', m1, m2, '/', y1, y2, y3, y4] ∧
      isDecimalDigit d1 = true ∧ isDecimalDigit d2 = true ∧ isDecimalDigit m1 = true ∧
      isDecimalDigit m2 = true ∧ isDecimalDigit y1 = true ∧ isDecimalDigit y2 = true ∧
      isDecimalDigit y3 = true ∧ isDecimalDigit y4 = true := by
  unfold isDDMMYYYY at h
  split at h
  · rename_i d1 d2 s1 m1 m2 s2 y1 y2 y3 y4
    simp only [Bool.and_eq_true, beq_iff_eq] at h
    obtain ⟨⟨⟨⟨⟨⟨⟨⟨⟨h1, h2⟩, h3⟩, h4⟩, h5⟩, h6⟩, h7⟩, h8⟩, h9⟩, h10⟩ := h
    subst h3 h6
    exact ⟨d1, d2, m1, m2, y1, y2, y3, y4, rfl, h1, h2, h4, h5, h7, h8, h9, h10⟩
  · exact absurd h (by simp)

theorem isMMYYYY_elim (k : Str) (h : isMMYYYY k = true) :
    ∃ m1 m2 y1 y2 y3 y4,
      k = [m1, m2, '/', y1, y2, y3, y4] ∧
      isDecimalDigit m1 = true ∧ isDecimalDigit m2 = true ∧ isDecimalDigit y1 = true ∧
      isDecimalDigit y2 = true ∧ isDecimalDigit y3 = true ∧ isDecimalDigit y4 = true := by
  unfold isMMYYYY at h
  split at h
  · rename_i m1 m2 s1 y1 y2 y3 y4
    simp only [Bool.and_eq_true, beq_iff_eq] at h
    obtain ⟨⟨⟨⟨⟨⟨h1, h2⟩, h3⟩, h4⟩, h5⟩, h6⟩, h7⟩ := h
    subst h3
    exact ⟨m1, m2, y1, y2, y3, y4, rfl, h1, h2, h4, h5, h6, h7⟩
  · exact absurd h (by simp)

theorem split_key (m1 m2 y1 y2 y3 y4 : Char)
    (h1 : isDecimalDigit m1 = true) (h2 : isDecimalDigit m2 = true)
    (h3 : isDecimalDigit y1 = true) (h4 : isDecimalDigit y2 = true)
    (h5 : isDecimalDigit y3 = true) (h6 : isDecimalDigit y4 = true) :
    split '/' [m1, m2, '/', y1, y2, y3, y4] = [[m1, m2], [y1, y2, y3, y4]] := by
  simp [split_digit_cons, split_sep_cons, split_nil, h1, h2, h3, h4, h5, h6]

theorem split_date (d1 d2 m1 m2 y1 y2 y3 y4 : Char)
    (hd1 : isDecimalDigit d1 = true) (hd2 : isDecimalDigit d2 = true)
    (h1 : isDecimalDigit m1 = true) (h2 : isDecimalDigit m2 = true)
    (h3 : isDecimalDigit y1 = true) (h4 : isDecimalDigit y2 = true)
    (h5 : isDecimalDigit y3 = true) (h6 : isDecimalDigit y4 = true) :
    split '/' [d1, d2, '/', m1, m2, '/', y1, y2, y3, y4]
      = [[d1, d2], [m1, m2], [y1, y2, y3, y4]] := by
  simp [split_digit_cons, split_sep_cons, split_nil, hd1, hd2, h1, h2, h3, h4, h5, h6]

/-- The key of a date DD/MM/YYYY is MM/YYYY, and its month and year read as
integers are those of the date. -/
theorem key_of_date (s : Str) (h : isDDMMYYYY s = true) :
    isMMYYYY (getMonthYear s) = true ∧
    monthOf (getMonthYear s) = (monthKey s).1 ∧ yearOf (getMonthYear s) = (monthKey s).2 := by
  obtain ⟨d1, d2, m1, m2, y1, y2, y3, y4, rfl, hd1, hd2, h1, h2, h3, h4, h5, h6⟩ :=
    isDDMMYYYY_elim s h
  have hk : getMonthYear [d1, d2, '/', m1, m2, '/', y1, y2, y3, y4]
      = [m1, m2, '/', y1, y2, y3, y4] := by
    unfold getMonthYear
    rw [split_date d1 d2 m1 m2 y1 y2 y3 y4 hd1 hd2 h1 h2 h3 h4 h5 h6]
    rfl
  rw [hk]
  refine ⟨?_, ?_, ?_⟩
  · simp [isMMYYYY, h1, h2, h3, h4, h5, h6]
  · unfold monthOf monthKey
    rw [split_key m1 m2 y1 y2 y3 y4 h1 h2 h3 h4 h5 h6,
      split_date d1 d2 m1 m2 y1 y2 y3 y4 hd1 hd2 h1 h2 h3 h4 h5 h6]
    rfl
  · unfold yearOf monthKey
    rw [split_key m1 m2 y1 y2 y3 y4 h1 h2 h3 h4 h5 h6,
      split_date d1 d2 m1 m2 y1 y2 y3 y4 hd1 hd2 h1 h2 h3 h4 h5 h6]
    rfl

theorem digit_range (c : Char) (h : isDecimalDigit c = true) : 48 ≤ c.toNat ∧ c.toNat ≤ 57 := by
  unfold isDecimalDigit at h
  simpa only [Bool.and_eq_true, decide_eq_true_eq] using h

theorem monthOf_lt (k : Str) (h : isMMYYYY k = true) : monthOf k < 100 := by
  obtain ⟨m1, m2, y1, y2, y3, y4, rfl, h1, h2, h3, h4, h5, h6⟩ := isMMYYYY_elim k h
  unfold monthOf
  rw [split_key m1 m2 y1 y2 y3 y4 h1 h2 h3 h4 h5 h6]
  have r1 := digit_range m1 h1
  have r2 := digit_range m2 h2
  simp only [List.getElem?_cons_zero, Option.getD_some, digitsVal, List.foldl_cons, List.foldl_nil]
  omega

/-- A key MM/YYYY is determined by its month and year read as integers. -/
theorem key_eq_of_month_year (a b : Str) (ha : isMMYYYY a = true) (hb : isMMYYYY b = true)
    (hm : monthOf a = monthOf b) (hy : yearOf a = yearOf b) : a = b := by
  obtain ⟨m1, m2, y1, y2, y3, y4, rfl, h1, h2, h3, h4, h5, h6⟩ := isMMYYYY_elim a ha
  obtain ⟨n1, n2, z1, z2, z3, z4, rfl, g1, g2, g3, g4, g5, g6⟩ := isMMYYYY_elim b hb
  unfold monthOf at hm
  unfold yearOf at hy
  rw [split_key m1 m2 y1 y2 y3 y4 h1 h2 h3 h4 h5 h6,
    split_key n1 n2 z1 z2 z3 z4 g1 g2 g3 g4 g5 g6] at hm hy
  simp only [List.getElem?_cons_zero, List.getElem?_cons_succ, Option.getD_some, digitsVal,
    List.foldl_cons, List.foldl_nil] at hm hy
  have r1 := digit_range m1 h1
  have r2 := digit_range m2 h2
  have r3 := digit_range y1 h3
  have r4 := digit_range y2 h4
  have r5 := digit_range y3 h5
  have r6 := digit_range y4 h6
  have s1 := digit_range n1 g1
  have s2 := digit_range n2 g2
  have s3 := digit_range z1 g3
  have s4 := digit_range z2 g4
  have s5 := digit_range z3 g5
  have s6 := digit_range z4 g6
  have e1 : m1 = n1 := char_eq_of_toNat_eq _ _ (by omega)
  have e2 : m2 = n2 := char_eq_of_toNat_eq _ _ (by omega)
  have e3 : y1 = z1 := char_eq_of_toNat_eq _ _ (by omega)
  have e4 : y2 = z2 := char_eq_of_toNat_eq _ _ (by omega)
  have e5 : y3 = z3 := char_eq_of_toNat_eq _ _ (by omega)
  have e6 : y4 = z4 := char_eq_of_toNat_eq _ _ (by omega)
  rw [e1, e2, e3, e4, e5, e6]

/-! ### The order of the monthly list -/

theorem sortInsert_pairwise (cmp : α → α → Num) (κ : α → ℕ) (a : α) :
    ∀ s : List α, (∀ b ∈ s, (sortsAfter cmp a b = true ↔ κ b < κ a)) →
      s.Pairwise (fun x y => κ x ≤ κ y) →
      (sortInsert cmp a s).Pairwise (fun x y => κ x ≤ κ y) := by
  intro s
  induction s with
  | nil => intro _ _; simp [sortInsert]
  | cons b l ih =>
    intro h hs
    rw [List.pairwise_cons] at hs
    unfold sortInsert
    by_cases hab : sortsAfter cmp a b = true
    · simp only [hab, if_true]
      rw [List.pairwise_cons]
      refine ⟨?_, ih (fun c hc => h c (List.mem_cons_of_mem _ hc)) hs.2⟩
      intro c hc
      have hc2 := (sortInsert_perm cmp a l).mem_iff.1 hc
      rw [List.mem_cons] at hc2
      rcases hc2 with hc2 | hc2
      · rw [hc2]; exact Nat.le_of_lt ((h b (List.mem_cons_self _ _)).1 hab)
      · exact hs.1 c hc2
    · have hab2 : sortsAfter cmp a b = false := by simpa using hab
      simp only [hab2, Bool.false_eq_true, if_false]
      have hle : κ a ≤ κ b := Nat.le_of_not_lt (fun hlt => hab ((h b (List.mem_cons_self _ _)).2 hlt))
      rw [List.pairwise_cons]
      refine ⟨?_, List.pairwise_cons.2 hs⟩
      intro c hc
      rw [List.mem_cons] at hc
      rcases hc with hc | hc
      · rw [hc]; exact hle
      · exact Nat.le_trans hle (hs.1 c hc)

theorem sort_pairwise (cmp : α → α → Num) (κ : α → ℕ) :
    ∀ l : List α, (∀ a ∈ l, ∀ b ∈ l, (sortsAfter cmp a b = true ↔ κ b < κ a)) →
      (sort cmp l).Pairwise (fun x y => κ x ≤ κ y) := by
  intro l
  induction l with
  | nil => intro _; simp [sort]
  | cons a l ih =>
    intro h
    unfold sort
    apply sortInsert_pairwise
    · intro b hb
      exact h a (List.mem_cons_self _ _) b (List.mem_cons_of_mem _ ((sort_perm cmp l).mem_iff.1 hb))
    · exact ih (fun x hx y hy => h x (List.mem_cons_of_mem _ hx) y (List.mem_cons_of_mem _ hy))

theorem Num.gt_sub_zero (x y : ℕ) :
    Num.gt (Num.sub (Num.fin (x : ℚ)) (Num.fin (y : ℚ))) (Num.fin 0) = true ↔ y < x := by
  simp only [Num.gt, Num.sub, Num.neg, Num.add, Num.lt, decide_eq_true_eq]
  constructor
  · intro h
    have : (y : ℚ) < x := by linarith
    exact_mod_cast this
  · intro h
    have : (y : ℚ) < x := by exact_mod_cast h
    linarith

/-- On keys MM/YYYY the comparator of the sort orders by year, then month, both
read as integers. -/
theorem sortsAfter_compareMonths (a b : MonthStat) (ha : isMMYYYY a.monthYear = true)
    (hb : isMMYYYY b.monthYear = true) :
    sortsAfter compareMonths a b = true
      ↔ 100 * yearOf b.monthYear + monthOf b.monthYear
          < 100 * yearOf a.monthYear + monthOf a.monthYear := by
  have hma := monthOf_lt _ ha
  have hmb := monthOf_lt _ hb
  obtain ⟨m1, m2, y1, y2, y3, y4, hka, h1, h2, h3, h4, h5, h6⟩ := isMMYYYY_elim _ ha
  obtain ⟨n1, n2, z1, z2, z3, z4, hkb, g1, g2, g3, g4, g5, g6⟩ := isMMYYYY_elim _ hb
  have hsa := split_key m1 m2 y1 y2 y3 y4 h1 h2 h3 h4 h5 h6
  have hsb := split_key n1 n2 z1 z2 z3 z4 g1 g2 g3 g4 g5 g6
  have hMa : monthOf a.monthYear = digitsVal [m1, m2] := by unfold monthOf; rw [hka, hsa]; rfl
  have hYa : yearOf a.monthYear = digitsVal [y1, y2, y3, y4] := by unfold yearOf; rw [hka, hsa]; rfl
  have hMb : monthOf b.monthYear = digitsVal [n1, n2] := by unfold monthOf; rw [hkb, hsb]; rfl
  have hYb : yearOf b.monthYear = digitsVal [z1, z2, z3, z4] := by unfold yearOf; rw [hkb, hsb]; rfl
  have dm1 : ∀ c ∈ [m1, m2], isDecimalDigit c = true := by
    intro c hc; simp only [List.mem_cons, List.mem_singleton, List.not_mem_nil, or_false] at hc
    rcases hc with rfl | rfl <;> assumption
  have dn1 : ∀ c ∈ [n1, n2], isDecimalDigit c = true := by
    intro c hc; simp only [List.mem_cons, List.mem_singleton, List.not_mem_nil, or_false] at hc
    rcases hc with rfl | rfl <;> assumption
  have dy1 : ∀ c ∈ [y1, y2, y3, y4], isDecimalDigit c = true := by
    intro c hc; simp only [List.mem_cons, List.mem_singleton, List.not_mem_nil, or_false] at hc
    rcases hc with rfl | rfl | rfl | rfl <;> assumption
  have dz1 : ∀ c ∈ [z1, z2, z3, z4], isDecimalDigit c = true := by
    intro c hc; simp only [List.mem_cons, List.mem_singleton, List.not_mem_nil, or_false] at hc
    rcases hc with rfl | rfl | rfl | rfl <;> assumption
  have hcmp : compareMonths a b
      = if [y1, y2, y3, y4] = [z1, z2, z3, z4] then
          Num.sub (Num.fin (digitsVal [m1, m2] : ℚ)) (Num.fin (digitsVal [n1, n2] : ℚ))
        else Num.sub (Num.fin (digitsVal [y1, y2, y3, y4] : ℚ))
          (Num.fin (digitsVal [z1, z2, z3, z4] : ℚ)) := by
    unfold compareMonths
    rw [hka, hkb, hsa, hsb]
    simp only [List.getElem?_cons_zero, List.getElem?_cons_succ, Option.some.injEq, toNumber]
    rw [stringToNumber_digits _ (by simp) dm1, stringToNumber_digits _ (by simp) dn1,
      stringToNumber_digits _ (by simp) dy1, stringToNumber_digits _ (by simp) dz1]
  unfold sortsAfter
  rw [hcmp, hMa, hYa, hMb, hYb]
  by_cases hy : [y1, y2, y3, y4] = [z1, z2, z3, z4]
  · rw [if_pos hy, Num.gt_sub_zero, hy]
    omega
  · rw [if_neg hy, Num.gt_sub_zero]
    have hne : digitsVal [y1, y2, y3, y4] ≠ digitsVal [z1, z2, z3, z4] := by
      intro he
      apply hy
      have r3 := digit_range y1 h3
      have r4 := digit_range y2 h4
      have r5 := digit_range y3 h5
      have r6 := digit_range y4 h6
      have s3 := digit_range z1 g3
      have s4 := digit_range z2 g4
      have s5 := digit_range z3 g5
      have s6 := digit_range z4 g6
      simp only [digitsVal, List.foldl_cons, List.foldl_nil] at he
      have e3 : y1 = z1 := char_eq_of_toNat_eq _ _ (by omega)
      have e4 : y2 = z2 := char_eq_of_toNat_eq _ _ (by omega)
      have e5 : y3 = z3 := char_eq_of_toNat_eq _ _ (by omega)
      have e6 : y4 = z4 := char_eq_of_toNat_eq _ _ (by omega)
      rw [e3, e4, e5, e6]
    rw [hMa] at hma
    rw [hMb] at hmb
    omega

theorem isMMYYYY_of_mem_monthlyStats (rows : List Row)
    (h : ∀ r ∈ rows, isDDMMYYYY r.dataRilevamento = true) (e : MonthStat)
    (he : e ∈ monthlyStats rows) : isMMYYYY e.monthYear = true := by
  obtain ⟨k, hk, rfl⟩ := (mem_monthlyStats rows e).1 he
  obtain ⟨r, hr, rfl⟩ := List.mem_map.1 hk
  have : (finalizeMonth (bucket (rowKey r) rows)).monthYear = rowKey r := bucket_monthYear _ _
  rw [this]
  exact (key_of_date _ (h r hr)).1

theorem monthlyStats_pairwise (rows : List Row)
    (h : ∀ r ∈ rows, isDDMMYYYY r.dataRilevamento = true) :
    (monthlyStats rows).Pairwise earlierMonth := by
  have hform : ∀ e ∈ ((monthlyData rows).map (fun p => p.2)).map finalizeMonth,
      isMMYYYY e.monthYear = true := by
    intro e he
    apply isMMYYYY_of_mem_monthlyStats rows h
    exact (sort_perm compareMonths _).mem_iff.2 he
  have h1 : (monthlyStats rows).Pairwise
      (fun x y => 100 * yearOf x.monthYear + monthOf x.monthYear
        ≤ 100 * yearOf y.monthYear + monthOf y.monthYear) :=
    sort_pairwise compareMonths (fun e => 100 * yearOf e.monthYear + monthOf e.monthYear) _
      (fun a ha b hb => sortsAfter_compareMonths a b (hform a ha) (hform b hb))
  have h2 : (monthlyStats rows).Pairwise (fun x y => x.monthYear ≠ y.monthYear) :=
    List.pairwise_map.1 (nodup_monthYear_monthlyStats rows)
  refine (h1.and h2).imp_of_mem ?_
  intro a b ha hb hab
  have fa := isMMYYYY_of_mem_monthlyStats rows h a ha
  have fb := isMMYYYY_of_mem_monthlyStats rows h b hb
  have hma := monthOf_lt _ fa
  have hmb := monthOf_lt _ fb
  have hne : ¬ (monthOf a.monthYear = monthOf b.monthYear ∧ yearOf a.monthYear = yearOf b.monthYear) :=
    fun hc => hab.2 (key_eq_of_month_year _ _ fa fb hc.1 hc.2)
  have hle := hab.1
  unfold earlierMonth
  omega

/-- C1: when every date has the form DD/MM/YYYY, whatever the order of the
records, each monthly entry is followed by an entry of a later year, or of the
same year and a later month, year and month compared as integers (this holds
for consecutive entries and for every pair of entries in list order). -/
theorem monthlyStats_sorted (rows : List Row)
    (h : ∀ r ∈ rows, isDDMMYYYY r.dataRilevamento = true) :
    List.Chain' earlierMonth (loadData rows).monthlyStats ∧
    List.Pairwise earlierMonth (loadData rows).monthlyStats :=
  ⟨List.Pairwise.chain' (monthlyStats_pairwise rows h), monthlyStats_pairwise rows h⟩

theorem monthlyStats_sorted_witness :
    (∀ r ∈ ([⟨"15/01/2024".toList, "10".toList⟩, ⟨"20/12/2023".toList, "30".toList⟩,
        ⟨"02/01/2024".toList, []⟩] : List Row), isDDMMYYYY r.dataRilevamento = true) ∧
    (List.Chain' earlierMonth (loadData [⟨"15/01/2024".toList, "10".toList⟩,
        ⟨"20/12/2023".toList, "30".toList⟩, ⟨"02/01/2024".toList, []⟩]).monthlyStats ∧
      List.Pairwise earlierMonth (loadData [⟨"15/01/2024".toList, "10".toList⟩,
        ⟨"20/12/2023".toList, "30".toList⟩, ⟨"02/01/2024".toList, []⟩]).monthlyStats) ∧
    (loadData [⟨"15/01/2024".toList, "10".toList⟩, ⟨"20/12/2023".toList, "30".toList⟩,
        ⟨"02/01/2024".toList, []⟩]).monthlyStats.map (fun e => e.monthYear)
      = ["12/2023".toList, "01/2024".toList] :=
  ⟨by decide, monthlyStats_sorted _ (by decide), by decide!⟩

/-! ### One entry per month -/

theorem monthKey_eq_iff (rows : List Row) (h : ∀ r ∈ rows, isDDMMYYYY r.dataRilevamento = true)
    (r : Row) (hr : r ∈ rows) (e : MonthStat) (he : e ∈ monthlyStats rows) :
    monthKey r.dataRilevamento = entryKey e ↔ rowKey r = e.monthYear := by
  obtain ⟨hf, hm, hy⟩ := key_of_date _ (h r hr)
  have hfe := isMMYYYY_of_mem_monthlyStats rows h e he
  unfold entryKey
  constructor
  · intro hk
    have h1 : monthOf (rowKey r) = monthOf e.monthYear := by
      show monthOf (getMonthYear r.dataRilevamento) = _
      rw [hm, hk]
    have h2 : yearOf (rowKey r) = yearOf e.monthYear := by
      show yearOf (getMonthYear r.dataRilevamento) = _
      rw [hy, hk]
    exact key_eq_of_month_year _ _ hf hfe h1 h2
  · intro hk
    rw [← hk]
    exact Prod.ext hm.symm hy.symm

/-- C9: when every date has the form DD/MM/YYYY, the monthly list has exactly
one entry per distinct MonthKey (month and year as integers) occurring among
the records, those with a null value included; the totalDays of an entry is the
number of records of its month whose value is non-null, and its exceedances is
the number of records of its month whose value is greater than 25. -/
theorem one_entry_per_month (rows : List Row)
    (h : ∀ r ∈ rows, isDDMMYYYY r.dataRilevamento = true) :
    ((loadData rows).monthlyStats.map entryKey).Nodup ∧
    (∀ k, k ∈ (loadData rows).monthlyStats.map entryKey
      ↔ k ∈ rows.map (fun r => monthKey r.dataRilevamento)) ∧
    ∀ e ∈ (loadData rows).monthlyStats,
      e.totalDays
        = rows.countP (fun r => monthKey r.dataRilevamento = entryKey e ∧ rowValue r ≠ none) ∧
      e.exceedances
        = rows.countP (fun r => monthKey r.dataRilevamento = entryKey e ∧
            Num.gt (nullToNumber (rowValue r)) (Num.fin 25) = true) := by
  refine ⟨?_, ?_, ?_⟩
  · show ((monthlyStats rows).map entryKey).Nodup
    have hn := nodup_monthYear_monthlyStats rows
    have : (monthlyStats rows).map entryKey
        = ((monthlyStats rows).map (fun e => e.monthYear)).map (fun k => (monthOf k, yearOf k)) := by
      rw [List.map_map]; rfl
    rw [this]
    apply List.Nodup.map_on _ hn
    intro x hx y hy hxy
    obtain ⟨a, ha, rfl⟩ := List.mem_map.1 hx
    obtain ⟨b, hb, rfl⟩ := List.mem_map.1 hy
    simp only [Prod.mk.injEq] at hxy
    exact key_eq_of_month_year _ _ (isMMYYYY_of_mem_monthlyStats rows h a ha)
      (isMMYYYY_of_mem_monthlyStats rows h b hb) hxy.1 hxy.2
  · intro k
    show k ∈ (monthlyStats rows).map entryKey ↔ _
    constructor
    · intro hk
      obtain ⟨e, he, rfl⟩ := List.mem_map.1 hk
      obtain ⟨key, hkey, hek⟩ := (mem_monthlyStats rows e).1 he
      obtain ⟨r, hr, rfl⟩ := List.mem_map.1 hkey
      refine List.mem_map.2 ⟨r, hr, ?_⟩
      rw [monthKey_eq_iff rows h r hr e he, hek]
      exact (bucket_monthYear _ _).symm
    · intro hk
      obtain ⟨r, hr, rfl⟩ := List.mem_map.1 hk
      have he : finalizeMonth (bucket (rowKey r) rows) ∈ monthlyStats rows :=
        (mem_monthlyStats rows _).2 ⟨rowKey r, List.mem_map.2 ⟨r, hr, rfl⟩, rfl⟩
      refine List.mem_map.2 ⟨_, he, ?_⟩
      symm
      rw [monthKey_eq_iff rows h r hr _ he]
      exact (bucket_monthYear _ _).symm
  · intro e he
    have he2 : e ∈ monthlyStats rows := he
    obtain ⟨key, _, hek⟩ := (mem_monthlyStats rows e).1 he2
    have hmy : e.monthYear = key := by rw [hek]; exact bucket_monthYear _ _
    constructor
    · have : e.totalDays = (bucket key rows).totalDays := by rw [hek]; rfl
      rw [this, bucket_totalDays]
      apply List.countP_congr
      intro r hr
      simp only [decide_eq_true_eq]
      rw [monthKey_eq_iff rows h r hr e he2, hmy]
    · have : e.exceedances = (bucket key rows).exceedances := by rw [hek]; rfl
      rw [this, bucket_exceedances]
      apply List.countP_congr
      intro r hr
      simp only [decide_eq_true_eq]
      rw [monthKey_eq_iff rows h r hr e he2, hmy]
      rfl

theorem one_entry_per_month_witness :
    (∀ r ∈ ([⟨"15/01/2024".toList, "10".toList⟩, ⟨"20/12/2023".toList, "30".toList⟩,
        ⟨"02/01/2024".toList, []⟩] : List Row), isDDMMYYYY r.dataRilevamento = true) ∧
    (((loadData [⟨"15/01/2024".toList, "10".toList⟩, ⟨"20/12/2023".toList, "30".toList⟩,
        ⟨"02/01/2024".toList, []⟩]).monthlyStats.map entryKey).Nodup ∧
    (∀ k, k ∈ (loadData [⟨"15/01/2024".toList, "10".toList⟩, ⟨"20/12/2023".toList, "30".toList⟩,
        ⟨"02/01/2024".toList, []⟩]).monthlyStats.map entryKey
      ↔ k ∈ ([⟨"15/01/2024".toList, "10".toList⟩, ⟨"20/12/2023".toList, "30".toList⟩,
        ⟨"02/01/2024".toList, []⟩] : List Row).map (fun r => monthKey r.dataRilevamento)) ∧
    ∀ e ∈ (loadData [⟨"15/01/2024".toList, "10".toList⟩, ⟨"20/12/2023".toList, "30".toList⟩,
        ⟨"02/01/2024".toList, []⟩]).monthlyStats,
      e.totalDays
        = ([⟨"15/01/2024".toList, "10".toList⟩, ⟨"20/12/2023".toList, "30".toList⟩,
            ⟨"02/01/2024".toList, []⟩] : List Row).countP
          (fun r => monthKey r.dataRilevamento = entryKey e ∧ rowValue r ≠ none) ∧
      e.exceedances
        = ([⟨"15/01/2024".toList, "10".toList⟩, ⟨"20/12/2023".toList, "30".toList⟩,
            ⟨"02/01/2024".toList, []⟩] : List Row).countP
          (fun r => monthKey r.dataRilevamento = entryKey e ∧
            Num.gt (nullToNumber (rowValue r)) (Num.fin 25) = true)) ∧
    (loadData [⟨"15/01/2024".toList, "10".toList⟩, ⟨"20/12/2023".toList, "30".toList⟩,
        ⟨"02/01/2024".toList, []⟩]).monthlyStats.map
        (fun e => (entryKey e, e.totalDays, e.exceedances))
      = [((12, 2023), 1, 1), ((1, 2024), 1, 0)] :=
  ⟨by decide, one_entry_per_month _ (by decide), by decide!⟩

end PM25Dashboard
